import Mathlib

/-!
# dsdplay: the streaming driver of `src/dsdplay.c`

A shallow embedding of the DSD to PCM/DoP transcoder's `main` and of its
helper `right_shift`.

* C integers are natural numbers; a `u32_t` product and a `size_t` passed as
  an `unsigned` are reduced modulo `2 ^ 32`, a `size_t` product modulo
  `2 ^ 64` (LP64).
* Signed 32-bit samples are integers; `>>` on them is the arithmetic shift.
* The three libraries the driver calls (libdsd, soxr, FLAC) and `malloc` are
  not part of the program: they are the fields of `Lib`, state machines over
  an arbitrary resampler state `ρ` and encoder state `ε`.
* A run is described by the list of library calls it makes (`Event`), in
  order, each with its arguments and with what the library answered.
* The tokenizer `next_param` works on a memory of characters with addresses,
  so that what it writes into the string it is given is seen by later calls;
  the profile `resample_create` builds is what it hands to `soxr_create`.
-/

namespace Dsdplay

/-! ## Machine integers -/

/-- Conversion to `u32_t` / `unsigned`. -/
def toU32 (n : Nat) : Nat := n % 2 ^ 32

/-- Conversion to `size_t`. -/
def toSize (n : Nat) : Nat := n % 2 ^ 64

/-- The value of `sizeof(s32_t)`. -/
def sizeof_s32 : Nat := 4

/-! ## `right_shift` (lines 149-155) -/

/-- The loop `while (count--) { *ptr = *ptr >> 8; ptr++; }`: the list is the
memory from `ptr` on, and the loop walks over its first `count` cells. -/
def right_shift_loop : List Int → Nat → List Int
  | [], _ => []
  | xs, 0 => xs
  | x :: xs, count + 1 => (x >>> (8 : Nat)) :: right_shift_loop xs count

/-- The function `right_shift(ptr, frames, channels)`, with
`unsigned count = frames * channels`. -/
def right_shift (ptr : List Int) (frames channels : Nat) : List Int :=
  right_shift_loop ptr (toU32 (toU32 frames * toU32 channels))

/-! ## Data model -/

/-- The fields of libdsd's `dsdbuffer` that the driver reads, and its payload. -/
structure dsdbuffer where
  max_bytes_per_ch : Nat
  bytes_per_channel : Nat
  data : List Nat
  deriving DecidableEq

/-- One library call made by the driver, with its arguments and its answer. -/
inductive Event where
  | malloc (bytes : Nat) (ok : Bool)
  | set_compression_level (level : Nat)
  | set_bits_per_sample (bits : Nat)
  | set_channels (channels : Nat)
  | set_sample_rate (rate : Nat)
  | init_stream (ok : Bool)
  | resample_create (sample_rate freq_limit channels : Nat) (ok : Bool)
  | dsd_read (block : Option dsdbuffer)
  | dsd_buffer_msb_order
  | halfrate_filter
  | dsd_over_pcm (block : dsdbuffer) (right_justify : Bool)
  | dsd_to_pcm (block : dsdbuffer) (right_justify : Bool)
  | soxr_process (input : Option (List Int)) (ilen olen idone odone : Nat)
      (out : List Int)
  | right_shift (frames channels : Nat)
  | process_interleaved (samples : List Int) (frames : Nat) (ok : Bool)
  | finish
  | error (msg : String)
  deriving DecidableEq

/-- What one `soxr_process` call gives back: the resampler's next state, the
frames consumed (`idone`), the frames produced (`odone`) and the output
buffer after the call. -/
structure SoxrOut (ρ : Type) where
  handle : ρ
  idone : Nat
  odone : Nat
  out : List Int

/-- The collaborators of the driver. `ρ` is the state behind a `soxr_t`, `ε`
the state behind a `FLAC__StreamEncoder`. The two last fields are the parts
of the libraries' contracts the driver relies on: normalising the byte order
does not change a block's size, and soxr never produces more than `olen`
frames. -/
structure Lib (ρ ε : Type) where
  dsd_buffer_msb_order : dsdbuffer → dsdbuffer
  init_halfrate : dsdbuffer → dsdbuffer
  halfrate_filter : dsdbuffer → dsdbuffer → dsdbuffer
  dsd_over_pcm : dsdbuffer → List Int → Bool → List Int
  dsd_to_pcm : dsdbuffer → List Int → Bool → List Int
  /-- The `call`-th `malloc` of the run, `none` for `NULL`. -/
  malloc : (call : Nat) → (bytes : Nat) → Option (List Int)
  /-- The outcome of `resample_create`: `none` when `soxr_create` reports an
  error. -/
  resample_create : Option String → Nat → Nat → Nat → Option ρ
  soxr_process : ρ → Option (List Int) → (ilen : Nat) → List Int → (olen : Nat) → SoxrOut ρ
  init_stream : (channels rate bits level : Nat) → Option ε
  process_interleaved : ε → List Int → Nat → ε × Bool
  finish : ε → ε
  msb_order_bytes : ∀ b, (dsd_buffer_msb_order b).bytes_per_channel = b.bytes_per_channel
  soxr_odone_le : ∀ r i n buf cap, (soxr_process r i n buf cap).odone ≤ cap

/-- What `main` has in hand once the file is open and the command line is
read: `-r` (`freq_limit`), `-u` (`dop`), `-R` (`resample_str`), the file's
frequency and channel count, its buffer descriptor, and the blocks `dsd_read`
will return before it returns `NULL`. The numbers are the values of `u32_t`
variables and fields, so they are below `2 ^ 32` in every run of the
program. -/
structure Input where
  frequency : Nat
  channels : Nat
  freq_limit : Nat
  dop : Bool
  resample_str : Option String
  buffer : dsdbuffer
  blocks : List dsdbuffer

/-! ## Mode selection (lines 253-263) -/

/-- The variables `dop`, `sample_rate` and `freq_limit` after line 263. -/
structure Mode where
  dop : Bool
  sample_rate : Nat
  freq_limit : Nat
  deriving DecidableEq

/-- Lines 253-263 of `main`. -/
def select_mode (frequency freq_limit : Nat) (dop : Bool) : Mode :=
  let dop := if freq_limit ≠ 0 ∧ freq_limit < frequency / 16 then false else dop
  if dop then
    { dop := true, sample_rate := frequency / 16, freq_limit := 0 }
  else
    { dop := false
      sample_rate := frequency / 8
      freq_limit := if freq_limit > frequency / 8 then 0 else freq_limit }

/-- The local `halfrate` of `main`: initialised to `false`, and the only
assignments to it are compiled out (`#if 0`). -/
def halfrate : Bool := false

/-! ## Set-up (lines 265-299) -/

/-- The values fixed before the main loop and read, never written, by it. -/
structure Config where
  dop : Bool
  freq_limit : Nat
  sample_rate : Nat
  channels : Nat
  max_frames : Nat
  obuffer : dsdbuffer

/-- The mutable part of the run. Without limiting `resampler` is the
uninitialised local (`default`) and `pcmout2` is `NULL` (`[]`). -/
structure State (ρ ε : Type) where
  resampler : ρ
  encoder : ε
  pcmout1 : List Int
  pcmout2 : List Int

/-- Line 272: `max_frames = dop ? obuffer->max_bytes_per_ch / 2 : obuffer->max_bytes_per_ch`. -/
def max_frames_of (dop : Bool) (obuffer : dsdbuffer) : Nat :=
  if dop then obuffer.max_bytes_per_ch / 2 else obuffer.max_bytes_per_ch

/-- Line 273: `bsize = max_frames * channels * sizeof(s32_t)`, the product of
the two `u32_t` taken first. -/
def bsize_of (max_frames channels : Nat) : Nat :=
  toSize (toU32 (max_frames * channels) * sizeof_s32)

/-- Lines 253-299. `Except.error` is a run that ended in `error(...)`, with
the calls made so far. -/
def startup {ρ ε : Type} [Inhabited ρ] (lib : Lib ρ ε) (inp : Input) :
    Except (List Event) (Config × State ρ ε × List Event) :=
  let m := select_mode inp.frequency inp.freq_limit inp.dop
  let channels := inp.channels
  let obuffer := if halfrate then lib.init_halfrate inp.buffer else inp.buffer
  let max_frames := max_frames_of m.dop obuffer
  let bsize := bsize_of max_frames channels
  match lib.malloc 0 bsize with
  | none => .error [.malloc bsize false, .error "unable to allocate pcm buffer 1"]
  | some pcmout1 =>
    let rate := if m.freq_limit ≠ 0 then m.freq_limit else m.sample_rate
    let tr1 := [Event.malloc bsize true, .set_compression_level 0, .set_bits_per_sample 24,
      .set_channels channels, .set_sample_rate rate]
    match lib.init_stream channels rate 24 0 with
    | none => .error (tr1 ++ [.init_stream false, .error "unable to create flac encoder"])
    | some encoder =>
      let tr2 := tr1 ++ [.init_stream true]
      let cfg : Config :=
        { dop := m.dop, freq_limit := m.freq_limit, sample_rate := m.sample_rate,
          channels := channels, max_frames := max_frames, obuffer := obuffer }
      if m.freq_limit ≠ 0 then
        match lib.resample_create inp.resample_str m.sample_rate m.freq_limit channels with
        | none => .error (tr2 ++ [.resample_create m.sample_rate m.freq_limit channels false,
            .error "error creating resampler"])
        | some resampler =>
          let tr3 := tr2 ++ [.resample_create m.sample_rate m.freq_limit channels true]
          match lib.malloc 1 bsize with
          | none => .error (tr3 ++ [.malloc bsize false, .error "unable to allocate pcm buffer 2"])
          | some pcmout2 =>
            let st : State ρ ε :=
              { resampler := resampler, encoder := encoder, pcmout1 := pcmout1,
                pcmout2 := pcmout2 }
            .ok (cfg, st, tr3 ++ [.malloc bsize true])
      else
        let st : State ρ ε :=
          { resampler := default, encoder := encoder, pcmout1 := pcmout1, pcmout2 := [] }
        .ok (cfg, st, tr2)

/-! ## The main loop (lines 302-332) -/

/-- How the main loop ended: `dsd_read` returned `NULL`, or the encoder
failed (`break`), or `error("not resampled all frames")` ended the process. -/
inductive LoopExit where
  | eof
  | encoder_failed
  | fatal
  deriving DecidableEq

/-- One pass of the `while` body, lines 303-331, over the block `b` that
`dsd_read` returned: `none` when the loop goes on to the next `dsd_read`,
otherwise how it ended. Without `halfrate`, `obuffer` is the file's buffer,
the one `dsd_read` fills and returns. -/
def loop_body {ρ ε : Type} (lib : Lib ρ ε) (cfg : Config) (st : State ρ ε) (b : dsdbuffer) :
    Option LoopExit × State ρ ε × List Event :=
  let ibuffer := lib.dsd_buffer_msb_order b
  let obuffer := if halfrate then lib.halfrate_filter ibuffer cfg.obuffer else ibuffer
  let tr0 := [Event.dsd_read (some b), .dsd_buffer_msb_order] ++
    (if halfrate then [Event.halfrate_filter] else [])
  let rj := cfg.freq_limit == 0
  let pcmout1 := if cfg.dop then lib.dsd_over_pcm obuffer st.pcmout1 rj
    else lib.dsd_to_pcm obuffer st.pcmout1 rj
  let frames := if cfg.dop then ibuffer.bytes_per_channel / 2 else ibuffer.bytes_per_channel
  let tr1 := tr0 ++ [if cfg.dop then Event.dsd_over_pcm obuffer rj else .dsd_to_pcm obuffer rj]
  if cfg.freq_limit ≠ 0 then
    let o := lib.soxr_process st.resampler (some pcmout1) frames st.pcmout2 cfg.max_frames
    let odone := toU32 o.odone
    let pcmout2 := right_shift o.out odone cfg.channels
    let r := lib.process_interleaved st.encoder pcmout2 odone
    let st1 : State ρ ε :=
      { resampler := o.handle, encoder := r.fst, pcmout1 := pcmout1, pcmout2 := pcmout2 }
    let tr2 := tr1 ++
      [Event.soxr_process (some pcmout1) frames cfg.max_frames o.idone o.odone o.out,
        .right_shift odone cfg.channels, .process_interleaved pcmout2 odone r.snd]
    if o.idone ≠ frames then (some .fatal, st1, tr2 ++ [.error "not resampled all frames"])
    else if r.snd then (none, st1, tr2)
    else (some .encoder_failed, st1, tr2)
  else
    let r := lib.process_interleaved st.encoder pcmout1 frames
    let st1 : State ρ ε := { st with encoder := r.fst, pcmout1 := pcmout1 }
    let tr2 := tr1 ++ [Event.process_interleaved pcmout1 frames r.snd]
    if r.snd then (none, st1, tr2)
    else (some .encoder_failed, st1, tr2)

/-- Lines 302-332: the blocks still to come are the argument. -/
def main_loop {ρ ε : Type} (lib : Lib ρ ε) (cfg : Config) :
    State ρ ε → List dsdbuffer → LoopExit × State ρ ε × List Event
  | st, [] => (.eof, st, [.dsd_read none])
  | st, b :: rest =>
    match loop_body lib cfg st b with
    | (some e, st1, tr) => (e, st1, tr)
    | (none, st1, tr) =>
      let res := main_loop lib cfg st1 rest
      (res.1, res.2.1, tr ++ res.2.2)

/-! ## The drain (lines 334-343) -/

/-- The `do ... while (odone && flac_ok)` loop: `none` when `fuel` rounds did
not reach the end of the loop. -/
def drain_loop {ρ ε : Type} (lib : Lib ρ ε) (cfg : Config) :
    Nat → State ρ ε → Option (State ρ ε × List Event)
  | 0, _ => none
  | fuel + 1, st =>
    let o := lib.soxr_process st.resampler none 0 st.pcmout2 cfg.max_frames
    let odone := toU32 o.odone
    let pcmout2 := right_shift o.out odone cfg.channels
    let r := lib.process_interleaved st.encoder pcmout2 odone
    let st1 : State ρ ε := { st with resampler := o.handle, encoder := r.fst, pcmout2 := pcmout2 }
    let tr := [Event.soxr_process none 0 cfg.max_frames o.idone o.odone o.out,
      .right_shift odone cfg.channels, .process_interleaved pcmout2 odone r.snd]
    if o.odone ≠ 0 ∧ r.snd = true then
      (drain_loop lib cfg fuel st1).map fun res => (res.1, tr ++ res.2)
    else some (st1, tr)

/-- Lines 335-343. -/
def drain {ρ ε : Type} (lib : Lib ρ ε) (cfg : Config) (fuel : Nat) (st : State ρ ε) :
    Option (State ρ ε × List Event) :=
  if cfg.freq_limit ≠ 0 then drain_loop lib cfg fuel st else some (st, [])

/-! ## The whole run -/

/-- The process exit status and the library calls made, in order. -/
structure Outcome where
  status : Nat
  trace : List Event
  deriving DecidableEq

/-- The function `main` from line 253 on; `none` when the drain was still
running after `fuel` rounds. -/
def main {ρ ε : Type} [Inhabited ρ] (lib : Lib ρ ε) (fuel : Nat) (inp : Input) :
    Option Outcome :=
  match startup lib inp with
  | .error tr => some { status := 1, trace := tr }
  | .ok (cfg, st, tr0) =>
    match main_loop lib cfg st inp.blocks with
    | (.fatal, _, tr1) => some { status := 1, trace := tr0 ++ tr1 }
    | (_, st1, tr1) =>
      match drain lib cfg fuel st1 with
      | none => none
      | some (_, tr2) => some { status := 0, trace := tr0 ++ tr1 ++ tr2 ++ [.finish] }

/-! ## Reading a trace -/

/-- The frame count of a `process_interleaved` call. -/
def Event.encoded : Event → Option Nat
  | .process_interleaved _ n _ => some n
  | _ => none

/-- The frame counts of the `process_interleaved` calls of a trace, in order. -/
def encode_frames (tr : List Event) : List Nat := tr.filterMap Event.encoded

/-- The byte count of a `malloc` call. -/
def Event.allocated : Event → Option Nat
  | .malloc bytes _ => some bytes
  | _ => none

/-- The sizes asked of `malloc` in a trace, in order. -/
def malloc_sizes (tr : List Event) : List Nat := tr.filterMap Event.allocated

/-- Recognises a `soxr_process` call. -/
def Event.is_soxr_process : Event → Bool
  | .soxr_process .. => true
  | _ => false

/-- Recognises a `resample_create` call. -/
def Event.is_resample_create : Event → Bool
  | .resample_create .. => true
  | _ => false

/-- Recognises a `dsd_read` call. -/
def Event.is_dsd_read : Event → Bool
  | .dsd_read _ => true
  | _ => false

/-- Recognises the calls of the set-up phase. -/
def Event.is_setup : Event → Bool
  | .malloc .. => true
  | .set_compression_level _ => true
  | .set_bits_per_sample _ => true
  | .set_channels _ => true
  | .set_sample_rate _ => true
  | .init_stream _ => true
  | .resample_create .. => true
  | _ => false

/-- The frame count `main` assigns to a block: lines 313 and 316. -/
def block_frames (dop : Bool) (b : dsdbuffer) : Nat :=
  if dop then b.bytes_per_channel / 2 else b.bytes_per_channel

/-- The passes of the main loop over a list of blocks, none of which stops
the loop: the state reached and the calls made, `none` when a pass stops it. -/
def passes {ρ ε : Type} (lib : Lib ρ ε) (cfg : Config) :
    State ρ ε → List dsdbuffer → Option (State ρ ε × List Event)
  | st, [] => some (st, [])
  | st, b :: rest =>
    match loop_body lib cfg st b with
    | (none, st1, tr) => (passes lib cfg st1 rest).map fun res => (res.1, tr ++ res.2)
    | _ => none

/-- The shape of a drain: rounds of three calls, `soxr_process` with no input
and capacity `max_frames`, `right_shift` over the frames it produced, and
`process_interleaved` on the shifted buffer; a round is followed by another
one exactly when it produced frames and the encoder accepted them. -/
def drain_rounds (max_frames channels : Nat) : List Event → Prop
  | .soxr_process input ilen olen _ odone out :: .right_shift frames ch ::
      .process_interleaved samples n ok :: rest =>
    input = none ∧ ilen = 0 ∧ olen = max_frames ∧ frames = odone ∧ ch = channels ∧
      samples = right_shift out odone channels ∧ n = odone ∧
      (if odone ≠ 0 ∧ ok = true then drain_rounds max_frames channels rest else rest = [])
  | _ => False

/-- What the fixed buffers can hold: every `soxr_process` call offers at most
`max_frames` frames and gives `max_frames` as output capacity, and every
`process_interleaved` call passes at most `max_frames` frames. -/
def Event.fits (max_frames : Nat) : Event → Prop
  | .soxr_process _ ilen olen _ _ _ => ilen ≤ max_frames ∧ olen = max_frames
  | .process_interleaved _ n _ => n ≤ max_frames
  | _ => True

/-- The calls of a set-up that reaches the main loop. -/
def setup_calls (m : Mode) (channels bsize : Nat) : List Event :=
  [Event.malloc bsize true, .set_compression_level 0, .set_bits_per_sample 24,
    .set_channels channels,
    .set_sample_rate (if m.freq_limit ≠ 0 then m.freq_limit else m.sample_rate),
    .init_stream true] ++
  (if m.freq_limit ≠ 0 then
    [Event.resample_create m.sample_rate m.freq_limit channels true, .malloc bsize true]
  else [])

/-- Recognises the calls a pass of the main loop can make. -/
def Event.is_loop_call : Event → Bool
  | .dsd_read _ => true
  | .dsd_buffer_msb_order => true
  | .halfrate_filter => true
  | .dsd_over_pcm .. => true
  | .dsd_to_pcm .. => true
  | .soxr_process .. => true
  | .right_shift .. => true
  | .process_interleaved .. => true
  | .error _ => true
  | _ => false

/-- Recognises the calls the drain can make. -/
def Event.is_drain_call : Event → Bool
  | .soxr_process .. => true
  | .right_shift .. => true
  | .process_interleaved .. => true
  | _ => false

/-- Recognises a `process_interleaved` call that reported failure. -/
def Event.is_failure : Event → Bool
  | .process_interleaved _ _ ok => !ok
  | _ => false

/-- The buffer the packer leaves in `pcmout1`: lines 311-317. -/
def packed {ρ ε : Type} (lib : Lib ρ ε) (cfg : Config) (st : State ρ ε) (b : dsdbuffer)
    (right_justify : Bool) : List Int :=
  if cfg.dop then lib.dsd_over_pcm (lib.dsd_buffer_msb_order b) st.pcmout1 right_justify
  else lib.dsd_to_pcm (lib.dsd_buffer_msb_order b) st.pcmout1 right_justify

/-- The packer call of a pass: `dsd_over_pcm` in DoP mode, `dsd_to_pcm` otherwise. -/
def pack_call {ρ ε : Type} (lib : Lib ρ ε) (cfg : Config) (b : dsdbuffer)
    (right_justify : Bool) : Event :=
  if cfg.dop then .dsd_over_pcm (lib.dsd_buffer_msb_order b) right_justify
  else .dsd_to_pcm (lib.dsd_buffer_msb_order b) right_justify

/-- The calls of a pass over block `b` when limiting is active, up to the
`process_interleaved` call: lines 302-324. -/
def limited_pass {ρ ε : Type} (lib : Lib ρ ε) (cfg : Config) (st : State ρ ε)
    (b : dsdbuffer) : List Event :=
  let pcmout1 := packed lib cfg st b false
  let frames := block_frames cfg.dop b
  let o := lib.soxr_process st.resampler (some pcmout1) frames st.pcmout2 cfg.max_frames
  let pcmout2 := right_shift o.out (toU32 o.odone) cfg.channels
  [Event.dsd_read (some b), .dsd_buffer_msb_order, pack_call lib cfg b false,
    .soxr_process (some pcmout1) frames cfg.max_frames o.idone o.odone o.out,
    .right_shift (toU32 o.odone) cfg.channels,
    .process_interleaved pcmout2 (toU32 o.odone)
      (lib.process_interleaved st.encoder pcmout2 (toU32 o.odone)).snd]

/-! ## Sample alignment along a trace -/

/-- The calls of a set-up, whether it reached the main loop or ended in
`error`. -/
def startup_trace {ρ ε : Type} (r : Except (List Event) (Config × State ρ ε × List Event)) :
    List Event :=
  match r with
  | .ok (_, _, tr) => tr
  | .error tr => tr

/-- Recognises a `right_shift` call. -/
def Event.is_right_shift : Event → Bool
  | .right_shift .. => true
  | _ => false

/-- Recognises a call of the DoP packer. -/
def Event.is_dsd_over_pcm : Event → Bool
  | .dsd_over_pcm .. => true
  | _ => false

/-- The right-justify flag of a packer call. -/
def Event.right_justify : Event → Option Bool
  | .dsd_over_pcm _ rj => some rj
  | .dsd_to_pcm _ rj => some rj
  | _ => none

/-- Where the samples stand along a run: `batch` counts the 8-bit right
justifications of the batch that goes to the encoder next, `fed` those of
the samples the resampler has been fed, and `pending` says that the
resampler has produced a batch over which `right_shift` has not gone yet. -/
structure Justification where
  pending : Bool
  batch : Nat
  fed : Nat
  deriving DecidableEq

/-- The effect of one call on the alignment, `none` when the call breaks the
rule: a packer makes a new batch, justified once when its flag is set; the
resampler hands on the alignment of what it is fed, or has been fed when it
is drained; `right_shift` justifies once more, and only goes over a batch of
the resampler; the encoder only takes a batch justified exactly once, and
not a batch of the resampler still to be shifted. -/
def Justification.step (a : Justification) : Event → Option Justification
  | .dsd_over_pcm _ rj =>
    if a.pending then none else some { a with batch := if rj then 1 else 0 }
  | .dsd_to_pcm _ rj =>
    if a.pending then none else some { a with batch := if rj then 1 else 0 }
  | .soxr_process input _ _ _ _ _ =>
    if a.pending then none
    else
      match input with
      | some _ => some { pending := true, batch := a.batch, fed := a.batch }
      | none => some { pending := true, batch := a.fed, fed := a.fed }
  | .right_shift _ _ =>
    if a.pending then some { a with pending := false, batch := a.batch + 1 } else none
  | .process_interleaved _ _ _ =>
    if a.pending = false ∧ a.batch = 1 then some a else none
  | _ => some a

/-- The alignment after the calls of a trace, from nothing fed and nothing
packed; `none` when a call of the trace breaks the rule. -/
def justify_scan (a : Justification) (tr : List Event) : Option Justification :=
  tr.foldlM Justification.step a

/-- What holds of the alignment between two passes: no batch of the resampler
awaits its shift, and with limiting what the resampler was fed is not
justified. -/
def between_passes (cfg : Config) (a : Justification) : Prop :=
  a.pending = false ∧ (cfg.freq_limit ≠ 0 → a.fed = 0)

/-! ## The parameter tokenizer `next_param` (lines 47-61) -/

/-- The terminator of a C string. -/
def NUL : Char := Char.ofNat 0

/-- The function `strchr(s, c)` on the memory from `s` on: the offset of the
first `c`, the search ending at the terminator, which is itself compared with
`c`; `none` is `NULL`. -/
def strchr : List Char → Char → Option Nat
  | [], _ => none
  | x :: xs, c => if x = c then some 0 else if x = NUL then none else (strchr xs c).map (· + 1)

/-- The C string at address `p`: the characters before the first terminator. -/
def cstr (mem : List Char) (p : Nat) : List Char := (mem.drop p).takeWhile (· ≠ NUL)

/-- What `next_param` works on: the memory holding the strings, and its
`static char *str` (`none` is `NULL`). -/
structure Tokenizer where
  mem : List Char
  str : Option Nat
  deriving DecidableEq

/-- The function `next_param(src, c)`: the pointer returned (`none` is `NULL`)
and the memory and `str` it leaves. -/
def next_param (t : Tokenizer) (src : Option Nat) (c : Char) : Option Nat × Tokenizer :=
  let str := if src.isSome then src else t.str
  match str with
  | some p =>
    match strchr (t.mem.drop p) c with
    | some i =>
      let mem := t.mem.set (p + i) NUL
      (if mem.getD p NUL ≠ NUL then some p else none, { mem := mem, str := some (p + i + 1) })
    | none => (if t.mem.getD p NUL ≠ NUL then some p else none, { mem := t.mem, str := none })
  | none => (none, { mem := t.mem, str := none })

/-- A first call `next_param(src, c)` followed by `k - 1` calls
`next_param(NULL, c)`: the pointers returned, in order, and the final state. -/
def next_param_calls (c : Char) : Nat → Option Nat → Tokenizer → List (Option Nat) × Tokenizer
  | 0, _, t => ([], t)
  | k + 1, src, t =>
    let r := next_param t src c
    let rs := next_param_calls c k none r.2
    (r.1 :: rs.1, rs.2)

/-- The strings behind the pointers returned by a sequence of calls, read in
the memory the calls left; `none` is a `NULL` pointer. -/
def read_fields (r : List (Option Nat) × Tokenizer) : List (Option (List Char)) :=
  r.1.map (Option.map (cstr r.2.mem))

/-- What `k` calls are expected to return for the fields `fs` of a string: a
non-empty field as it is, `none` for an empty field and for every call after
the last field. -/
def expected_calls : Nat → List (List Char) → List (Option (List Char))
  | 0, _ => []
  | k + 1, [] => none :: expected_calls k []
  | k + 1, f :: fs => (if f = [] then none else some f) :: expected_calls k fs

/-- The memory `mem` holds the C string `s` at address `p`. -/
def holds (mem : List Char) (p : Nat) (s : List Char) : Prop :=
  NUL ∉ s ∧ ∃ front back, mem = front ++ s ++ NUL :: back ∧ p = front.length


/-! ## The resampler profile of `resample_create` (lines 63-135) -/

/-- The seven positional fields of the `-R` string, as lines 72-78 bind them;
`none` is a `NULL` pointer. -/
structure Params where
  recipe : Option (List Char)
  flags : Option (List Char)
  atten : Option (List Char)
  precision : Option (List Char)
  passband_end : Option (List Char)
  stopband_begin : Option (List Char)
  phase_response : Option (List Char)
  deriving DecidableEq

/-- Lines 72-78: seven calls of `next_param`, the first on `opt`; the strings
are read, as the rest of the function does, once the seven calls are made. -/
def resample_params (t : Tokenizer) (opt : Option Nat) : Params × Tokenizer :=
  let r1 := next_param t opt ':'
  let r2 := next_param r1.2 none ':'
  let r3 := next_param r2.2 none ':'
  let r4 := next_param r3.2 none ':'
  let r5 := next_param r4.2 none ':'
  let r6 := next_param r5.2 none ':'
  let r7 := next_param r6.2 none ':'
  ({ recipe := r1.1.map (cstr r7.2.mem)
     flags := r2.1.map (cstr r7.2.mem)
     atten := r3.1.map (cstr r7.2.mem)
     precision := r4.1.map (cstr r7.2.mem)
     passband_end := r5.1.map (cstr r7.2.mem)
     stopband_begin := r6.1.map (cstr r7.2.mem)
     phase_response := r7.1.map (cstr r7.2.mem) }, r7.2)

/-- The members of `soxr_io_spec_t` that `resample_create` sets or passes on. -/
structure soxr_io_spec_t (F : Type) where
  itype : Nat
  otype : Nat
  scale : F

/-- The members of `soxr_quality_spec_t`. -/
structure soxr_quality_spec_t (F : Type) where
  precision : F
  phase_response : F
  passband_end : F
  stopband_begin : F
  flags : Nat

/-- What `resample_create` takes from `soxr.h`, libc and libm: the recipe
constants, the two spec constructors, `atof`, `strtoul` (with its base) and
`pow`. A `double` is an element of `F`, a linearly ordered field in what
follows: comparison, negation and division are those of `F`, and the
not-a-number value of a `double` is outside the model. -/
structure ProfileLib (F : Type) where
  SOXR_QQ : Nat
  SOXR_LQ : Nat
  SOXR_MQ : Nat
  SOXR_HQ : Nat
  SOXR_VHQ : Nat
  SOXR_LINEAR_PHASE : Nat
  SOXR_INTERMEDIATE_PHASE : Nat
  SOXR_MINIMUM_PHASE : Nat
  SOXR_STEEP_FILTER : Nat
  SOXR_INT32_I : Nat
  soxr_io_spec : Nat → Nat → soxr_io_spec_t F
  soxr_quality_spec : Nat → Nat → soxr_quality_spec_t F
  atof : List Char → F
  strtoul : List Char → Nat → Nat
  pow : F → F → F

/-- Lines 81 and 93-103: the recipe, from the letters of the first field;
`strchr(recipe, x)` is not `NULL` exactly when the letter `x` occurs. -/
def q_recipe_of {F : Type} (L : ProfileLib F) (recipe : Option (List Char)) : Nat :=
  let q := L.SOXR_HQ
  match recipe with
  | none => q
  | some r =>
    if r ≠ [] then
      let q := if 'v' ∈ r then L.SOXR_VHQ else q
      let q := if 'h' ∈ r then L.SOXR_HQ else q
      let q := if 'm' ∈ r then L.SOXR_MQ else q
      let q := if 'l' ∈ r then L.SOXR_LQ else q
      let q := if 'q' ∈ r then L.SOXR_QQ else q
      let q := if 'L' ∈ r then q ||| L.SOXR_LINEAR_PHASE else q
      let q := if 'I' ∈ r then q ||| L.SOXR_INTERMEDIATE_PHASE else q
      let q := if 'M' ∈ r then q ||| L.SOXR_MINIMUM_PHASE else q
      let q := if 's' ∈ r then q ||| L.SOXR_STEEP_FILTER else q
      q
    else q

/-- What `resample_create` hands to `soxr_create`, with the two locals
`q_recipe` and `q_flags` it was built from. -/
structure Profile (F : Type) where
  sample_rate : Nat
  freq_limit : Nat
  channels : Nat
  q_recipe : Nat
  q_flags : Nat
  io_spec : soxr_io_spec_t F
  q_spec : soxr_quality_spec_t F

/-- Lines 80-129: the profile built from the seven fields. -/
def build_profile {F : Type} [LinearOrderedField F] (L : ProfileLib F) (p : Params)
    (sample_rate freq_limit channels : Nat) : Profile F :=
  let io_spec := L.soxr_io_spec L.SOXR_INT32_I L.SOXR_INT32_I
  let io_spec :=
    match p.atten with
    | some a =>
      let scale := L.pow 10 (-(L.atof a) / 20)
      if scale > 0 ∧ scale ≤ 1 then { io_spec with scale := scale } else io_spec
    | none => io_spec
  let q_recipe := q_recipe_of L p.recipe
  let q_flags :=
    match p.flags with
    | some f => L.strtoul f 16
    | none => 0
  let q_spec := L.soxr_quality_spec q_recipe q_flags
  let q_spec :=
    match p.precision with
    | some s => { q_spec with precision := if L.atof s < 0 then 0 else L.atof s }
    | none => q_spec
  let q_spec :=
    match p.passband_end with
    | some s => { q_spec with passband_end := if L.atof s / 100 < 0 then 0 else L.atof s / 100 }
    | none => q_spec
  let q_spec :=
    match p.stopband_begin with
    | some s =>
      { q_spec with stopband_begin := if L.atof s / 100 < 0 then 0 else L.atof s / 100 }
    | none => q_spec
  let q_spec :=
    match p.phase_response with
    | some s => { q_spec with phase_response := if L.atof s < -1 then -1 else L.atof s }
    | none => q_spec
  { sample_rate := sample_rate, freq_limit := freq_limit, channels := channels,
    q_recipe := q_recipe, q_flags := q_flags, io_spec := io_spec, q_spec := q_spec }

/-- The function `resample_create` up to its call of `soxr_create`: the
arguments of that call, and the state the tokenizer is left in. -/
def resample_create {F : Type} [LinearOrderedField F] (L : ProfileLib F) (t : Tokenizer)
    (opt : Option Nat) (sample_rate freq_limit channels : Nat) : Profile F × Tokenizer :=
  let r := resample_params t opt
  (build_profile L r.1 sample_rate freq_limit channels, r.2)

/-- No field present: what an absent `-R` string gives. -/
def no_params : Params :=
  { recipe := none, flags := none, atten := none, precision := none, passband_end := none,
    stopband_begin := none, phase_response := none }

/-- The fields when only the one at position `k`, counted from 0, is present. -/
def only_param (k : Nat) (tok : List Char) : Params :=
  { recipe := if k = 0 then some tok else none
    flags := if k = 1 then some tok else none
    atten := if k = 2 then some tok else none
    precision := if k = 3 then some tok else none
    passband_end := if k = 4 then some tok else none
    stopband_begin := if k = 5 then some tok else none
    phase_response := if k = 6 then some tok else none }

/-! ## A small set of collaborators, for concrete runs -/

/-- A resampler that takes `consume n` of `n` offered frames, keeps a backlog
of frames (its state) and gives half of it back while fed, all of it when
drained; an encoder that counts its calls and accepts the `k`-th one when
`accept k`; a byte-order normalisation and packers that keep the data; a
`malloc` that always succeeds. -/
def sampleLib (consume : Nat → Nat) (accept : Nat → Bool) : Lib Nat Nat where
  dsd_buffer_msb_order := fun b => b
  init_halfrate := fun b => b
  halfrate_filter := fun _ o => o
  dsd_over_pcm := fun b _ rj => b.data.map fun x => if rj then (x : Int) else (x : Int) * 256
  dsd_to_pcm := fun b _ rj => b.data.map fun x => if rj then (x : Int) else (x : Int) * 256
  malloc := fun _ bytes => some (List.replicate (bytes / 4) 0)
  resample_create := fun _ _ _ _ => some 0
  soxr_process := fun r input ilen buf olen =>
    let avail := r + consume ilen
    let odone := min (if input.isSome then avail / 2 else avail) olen
    { handle := avail - odone, idone := consume ilen, odone := odone,
      out := List.replicate buf.length (-512) }
  init_stream := fun _ _ _ _ => some 0
  process_interleaved := fun e _ _ => (e + 1, accept e)
  finish := fun e => e
  msb_order_bytes := fun _ => rfl
  soxr_odone_le := fun _ _ _ _ _ => Nat.min_le_right _ _

/-- A block of 4 bytes per channel. -/
def sampleBlockA : dsdbuffer :=
  { max_bytes_per_ch := 4, bytes_per_channel := 4, data := [1, 2, 3, 4, 5, 6, 7, 8] }

/-- A block of 2 bytes per channel. -/
def sampleBlockB : dsdbuffer :=
  { max_bytes_per_ch := 4, bytes_per_channel := 2, data := [9, 10, 11, 12] }

/-- A DSD64 stereo file read in two blocks of 4 and 2 bytes per channel. -/
def sampleInput (freq_limit : Nat) (dop : Bool) : Input where
  frequency := 2822400
  channels := 2
  freq_limit := freq_limit
  dop := dop
  resample_str := none
  buffer := { max_bytes_per_ch := 4, bytes_per_channel := 0, data := [] }
  blocks := [sampleBlockA, sampleBlockB]

/-- The file of `sampleInput`, read in four blocks of 4, 2, 4 and 2 bytes per
channel. -/
def sampleInput4 (freq_limit : Nat) (dop : Bool) : Input :=
  { sampleInput freq_limit dop with
    blocks := (sampleInput freq_limit dop).blocks ++ (sampleInput freq_limit dop).blocks }

/-- Decimal digits read as a number. -/
def sample_digits (ds : List Char) : Nat := ds.foldl (fun n d => 10 * n + (d.toNat - 48)) 0

/-- Collaborators for concrete profiles: the constants of `soxr.h`, a default
quality spec that does not depend on the recipe, an `atof` for an optional
minus sign followed by digits, a `strtoul` that reads digits, and a `pow`
that rounds the exponent down. -/
def sampleProfileLib : ProfileLib ℚ where
  SOXR_QQ := 0
  SOXR_LQ := 1
  SOXR_MQ := 2
  SOXR_HQ := 4
  SOXR_VHQ := 6
  SOXR_LINEAR_PHASE := 0
  SOXR_INTERMEDIATE_PHASE := 16
  SOXR_MINIMUM_PHASE := 48
  SOXR_STEEP_FILTER := 64
  SOXR_INT32_I := 2
  soxr_io_spec := fun i o => { itype := i, otype := o, scale := 1 }
  soxr_quality_spec := fun _ flags =>
    { precision := 20, phase_response := 50, passband_end := 9 / 10, stopband_begin := 1,
      flags := flags }
  atof := fun s =>
    match s with
    | '-' :: ds => -(sample_digits ds : ℚ)
    | ds => (sample_digits ds : ℚ)
  strtoul := fun s _ => sample_digits s
  pow := fun b x => b ^ ⌊x⌋

/-- The collaborators of `sampleProfileLib` with a `pow` that underflows as
that of a `double` does: for every `x ≤ -324`, `10 ^ x` is below 2^-1075,
half the least positive `double`, and the result is 0. -/
def underflowProfileLib : ProfileLib ℚ :=
  { sampleProfileLib with pow := fun b x => if x ≤ -324 then 0 else b ^ ⌊x⌋ }

/-! ## Lemmas: machine integers and `right_shift` -/

theorem toU32_of_lt {n : Nat} (h : n < 2 ^ 32) : toU32 n = n :=
  Nat.mod_eq_of_lt h

theorem toU32_le (n : Nat) : toU32 n ≤ n :=
  Nat.mod_le n _

theorem toU32_mul_of_lt {a b : Nat} (h : a * b < 2 ^ 32) :
    toU32 (toU32 a * toU32 b) = a * b := by
  rcases Nat.eq_zero_or_pos a with ha | ha
  · subst ha; simp [toU32]
  rcases Nat.eq_zero_or_pos b with hb | hb
  · subst hb; simp [toU32]
  have ha' : a < 2 ^ 32 := lt_of_le_of_lt (Nat.le_mul_of_pos_right a hb) h
  have hb' : b < 2 ^ 32 := lt_of_le_of_lt (Nat.le_mul_of_pos_left b ha) h
  rw [toU32_of_lt ha', toU32_of_lt hb', toU32_of_lt h]

theorem right_shift_loop_zero (xs : List Int) : right_shift_loop xs 0 = xs := by
  cases xs <;> rfl

theorem right_shift_loop_eq (xs : List Int) (count : Nat) :
    right_shift_loop xs count = (xs.take count).map (fun x : Int => x >>> (8 : Nat)) ++ xs.drop count := by
  induction xs generalizing count with
  | nil => simp [right_shift_loop]
  | cons x xs ih =>
    cases count with
    | zero => simp [right_shift_loop]
    | succ n => simp [right_shift_loop, ih]

theorem shiftRight_eight_eq_floor (x : Int) : x >>> (8 : Nat) = ⌊(x : ℚ) / 256⌋ := by
  rw [Int.shiftRight_eq_div_pow]
  have h : ((256 : ℕ) : ℚ) = 256 := by norm_num
  rw [← h, Rat.floor_intCast_div_natCast]

theorem right_shift_eq {ptr : List Int} {frames channels : Nat}
    (hfit : frames * channels < 2 ^ 32) :
    right_shift ptr frames channels =
      (ptr.take (frames * channels)).map (fun x : Int => x >>> (8 : Nat)) ++
        ptr.drop (frames * channels) := by
  rw [right_shift, toU32_mul_of_lt hfit, right_shift_loop_eq]

/-! ## Lemmas: the set-up -/

/-- A ceiling strictly above the working rate is dropped, in both modes. -/
theorem select_mode_ceiling_above_rate (frequency freq_limit : Nat) (dop : Bool)
    (h : (select_mode frequency freq_limit dop).sample_rate < freq_limit) :
    (select_mode frequency freq_limit dop).freq_limit = 0 := by
  unfold select_mode at h ⊢
  dsimp only at h ⊢
  split_ifs at h ⊢ <;> simp_all

theorem startup_ok_inv {ρ ε : Type} [Inhabited ρ] {lib : Lib ρ ε} {inp : Input}
    {cfg : Config} {st : State ρ ε} {tr : List Event}
    (h : startup lib inp = .ok (cfg, st, tr)) :
    cfg = { dop := (select_mode inp.frequency inp.freq_limit inp.dop).dop
            freq_limit := (select_mode inp.frequency inp.freq_limit inp.dop).freq_limit
            sample_rate := (select_mode inp.frequency inp.freq_limit inp.dop).sample_rate
            channels := inp.channels
            max_frames :=
              max_frames_of (select_mode inp.frequency inp.freq_limit inp.dop).dop inp.buffer
            obuffer := inp.buffer } ∧
    tr = setup_calls (select_mode inp.frequency inp.freq_limit inp.dop) inp.channels
      (bsize_of (max_frames_of (select_mode inp.frequency inp.freq_limit inp.dop).dop
        inp.buffer) inp.channels) ∧
    ((select_mode inp.frequency inp.freq_limit inp.dop).freq_limit = 0 → st.pcmout2 = []) := by
  unfold startup at h
  simp only [halfrate] at h
  split at h
  · simp at h
  · split at h
    · simp at h
    · split at h
      · split at h
        · simp at h
        · split at h
          · simp at h
          · next hlim _ _ _ _ _ _ =>
            simp only [Except.ok.injEq, Prod.mk.injEq] at h
            obtain ⟨h1, h2, h3⟩ := h
            subst h1 h2 h3
            simp [setup_calls, hlim]
      · next hlim =>
        simp only [Except.ok.injEq, Prod.mk.injEq] at h
        obtain ⟨h1, h2, h3⟩ := h
        subst h1 h2 h3
        simp only [ne_eq, Decidable.not_not] at hlim
        simp [setup_calls, hlim]

/-! ## Lemmas: the main loop -/

theorem loop_body_plain {ρ ε : Type} (lib : Lib ρ ε) (cfg : Config) (st : State ρ ε)
    (b : dsdbuffer) (hlim : cfg.freq_limit = 0) :
    loop_body lib cfg st b =
      let pcmout1 := packed lib cfg st b true
      let frames := block_frames cfg.dop b
      let r := lib.process_interleaved st.encoder pcmout1 frames
      (if r.snd then none else some .encoder_failed,
        { st with encoder := r.fst, pcmout1 := pcmout1 },
        [Event.dsd_read (some b), .dsd_buffer_msb_order, pack_call lib cfg b true,
          .process_interleaved pcmout1 frames r.snd]) := by
  simp only [loop_body, halfrate, hlim, block_frames, packed, pack_call, lib.msb_order_bytes,
    ne_eq, not_true_eq_false, if_false, beq_self_eq_true, Bool.false_eq_true, List.append_nil]
  split_ifs <;> simp_all

theorem loop_body_limited {ρ ε : Type} (lib : Lib ρ ε) (cfg : Config) (st : State ρ ε)
    (b : dsdbuffer) (hlim : cfg.freq_limit ≠ 0) :
    loop_body lib cfg st b =
      let pcmout1 := packed lib cfg st b false
      let frames := block_frames cfg.dop b
      let o := lib.soxr_process st.resampler (some pcmout1) frames st.pcmout2 cfg.max_frames
      let pcmout2 := right_shift o.out (toU32 o.odone) cfg.channels
      let r := lib.process_interleaved st.encoder pcmout2 (toU32 o.odone)
      let tr := [Event.dsd_read (some b), .dsd_buffer_msb_order, pack_call lib cfg b false,
          .soxr_process (some pcmout1) frames cfg.max_frames o.idone o.odone o.out,
          .right_shift (toU32 o.odone) cfg.channels,
          .process_interleaved pcmout2 (toU32 o.odone) r.snd]
      (if o.idone ≠ frames then some .fatal else if r.snd then none else some .encoder_failed,
        { resampler := o.handle, encoder := r.fst, pcmout1 := pcmout1, pcmout2 := pcmout2 },
        if o.idone ≠ frames then tr ++ [.error "not resampled all frames"] else tr) := by
  have hb : (cfg.freq_limit == 0) = false := by simpa using hlim
  simp only [loop_body, halfrate, hlim, hb, block_frames, packed, pack_call,
    lib.msb_order_bytes, ne_eq, not_false_eq_true, if_true, Bool.false_eq_true, if_false,
    List.append_nil]
  split_ifs <;> simp_all

theorem pack_call_loop {ρ ε : Type} (lib : Lib ρ ε) (cfg : Config) (b : dsdbuffer) (rj : Bool) :
    (pack_call lib cfg b rj).is_loop_call = true := by
  unfold pack_call; split <;> rfl

theorem pack_call_failure {ρ ε : Type} (lib : Lib ρ ε) (cfg : Config) (b : dsdbuffer)
    (rj : Bool) : (pack_call lib cfg b rj).is_failure = false := by
  unfold pack_call; split <;> rfl

theorem pack_call_encoded {ρ ε : Type} (lib : Lib ρ ε) (cfg : Config) (b : dsdbuffer)
    (rj : Bool) : (pack_call lib cfg b rj).encoded = none := by
  unfold pack_call; split <;> rfl

theorem pack_call_soxr {ρ ε : Type} (lib : Lib ρ ε) (cfg : Config) (b : dsdbuffer) (rj : Bool) :
    (pack_call lib cfg b rj).is_soxr_process = false := by
  unfold pack_call; split <;> rfl

theorem pack_call_read {ρ ε : Type} (lib : Lib ρ ε) (cfg : Config) (b : dsdbuffer) (rj : Bool) :
    (pack_call lib cfg b rj).is_dsd_read = false := by
  unfold pack_call; split <;> rfl

theorem pack_call_fits {ρ ε : Type} (lib : Lib ρ ε) (cfg : Config) (b : dsdbuffer) (rj : Bool)
    (n : Nat) : (pack_call lib cfg b rj).fits n := by
  unfold pack_call; split <;> exact True.intro

theorem loop_body_calls {ρ ε : Type} (lib : Lib ρ ε) (cfg : Config) (st : State ρ ε)
    (b : dsdbuffer) : ∀ ev ∈ (loop_body lib cfg st b).2.2, ev.is_loop_call = true := by
  by_cases hlim : cfg.freq_limit = 0
  · rw [loop_body_plain lib cfg st b hlim]
    simp only [List.forall_mem_cons, pack_call_loop]
    simp [Event.is_loop_call]
  · rw [loop_body_limited lib cfg st b hlim]
    dsimp only
    split_ifs <;> simp only [List.forall_mem_cons, pack_call_loop, List.cons_append,
      List.nil_append] <;> simp [Event.is_loop_call]

theorem loop_body_continue {ρ ε : Type} (lib : Lib ρ ε) (cfg : Config) (st : State ρ ε)
    (b : dsdbuffer) (h : (loop_body lib cfg st b).1 = none) :
    ∀ ev ∈ (loop_body lib cfg st b).2.2, ev.is_failure = false := by
  by_cases hlim : cfg.freq_limit = 0
  · rw [loop_body_plain lib cfg st b hlim] at h ⊢
    dsimp only at h ⊢
    split_ifs at h with hok
    simp only [List.forall_mem_cons, pack_call_failure]
    simp [Event.is_failure, hok]
  · rw [loop_body_limited lib cfg st b hlim] at h ⊢
    dsimp only at h ⊢
    split_ifs at h with hid hok
    rw [if_neg hid]
    simp only [List.forall_mem_cons, pack_call_failure]
    simp [Event.is_failure, hok]

theorem loop_body_failed {ρ ε : Type} (lib : Lib ρ ε) (cfg : Config) (st : State ρ ε)
    (b : dsdbuffer) (h : (loop_body lib cfg st b).1 = some .encoder_failed) :
    ∃ tr s n, (loop_body lib cfg st b).2.2 = tr ++ [.process_interleaved s n false] ∧
      ∀ ev ∈ tr, ev.is_failure = false := by
  by_cases hlim : cfg.freq_limit = 0
  · rw [loop_body_plain lib cfg st b hlim] at h ⊢
    dsimp only at h ⊢
    split_ifs at h with hok
    simp only [Bool.not_eq_true] at hok
    rw [hok]
    refine ⟨[_, _, _], _, _, rfl, ?_⟩
    simp only [List.forall_mem_cons, pack_call_failure]
    simp [Event.is_failure]
  · rw [loop_body_limited lib cfg st b hlim] at h ⊢
    dsimp only at h ⊢
    split_ifs at h
    · simp at h
    rename_i hid hok
    simp only [Bool.not_eq_true] at hok
    rw [if_neg hid, hok]
    refine ⟨[_, _, _, _, _], _, _, rfl, ?_⟩
    simp only [List.forall_mem_cons, pack_call_failure]
    simp [Event.is_failure]

theorem loop_body_ne_eof {ρ ε : Type} (lib : Lib ρ ε) (cfg : Config) (st : State ρ ε)
    (b : dsdbuffer) : (loop_body lib cfg st b).1 ≠ some .eof := by
  by_cases hlim : cfg.freq_limit = 0
  · rw [loop_body_plain lib cfg st b hlim]
    dsimp only
    split_ifs <;> simp
  · rw [loop_body_limited lib cfg st b hlim]
    dsimp only
    split_ifs <;> simp

theorem main_loop_nil {ρ ε : Type} (lib : Lib ρ ε) (cfg : Config) (st : State ρ ε) :
    main_loop lib cfg st [] = (.eof, st, [.dsd_read none]) := rfl

theorem main_loop_stop {ρ ε : Type} {lib : Lib ρ ε} {cfg : Config} {st st1 : State ρ ε}
    {b : dsdbuffer} {e : LoopExit} {tr : List Event} (rest : List dsdbuffer)
    (h : loop_body lib cfg st b = (some e, st1, tr)) :
    main_loop lib cfg st (b :: rest) = (e, st1, tr) := by
  rw [main_loop, h]

theorem main_loop_next {ρ ε : Type} {lib : Lib ρ ε} {cfg : Config} {st st1 : State ρ ε}
    {b : dsdbuffer} {tr : List Event} (rest : List dsdbuffer)
    (h : loop_body lib cfg st b = (none, st1, tr)) :
    main_loop lib cfg st (b :: rest) =
      ((main_loop lib cfg st1 rest).1, (main_loop lib cfg st1 rest).2.1,
        tr ++ (main_loop lib cfg st1 rest).2.2) := by
  rw [main_loop, h]

theorem main_loop_calls {ρ ε : Type} (lib : Lib ρ ε) (cfg : Config) (blocks : List dsdbuffer) :
    ∀ st : State ρ ε, ∀ ev ∈ (main_loop lib cfg st blocks).2.2, ev.is_loop_call = true := by
  induction blocks with
  | nil => intro st ev hev; simp [main_loop_nil] at hev; subst hev; rfl
  | cons b rest ih =>
    intro st ev hev
    have hc := loop_body_calls lib cfg st b
    rcases hb : loop_body lib cfg st b with ⟨_ | e, st1, tr⟩
    · rw [main_loop_next rest hb] at hev
      rw [hb] at hc
      rcases List.mem_append.mp hev with h | h
      · exact hc ev h
      · exact ih st1 ev h
    · rw [main_loop_stop rest hb] at hev
      rw [hb] at hc
      exact hc ev hev

/-- How the trace of the main loop ends: with the `dsd_read` that returned
`NULL`, or with the `process_interleaved` call that failed; no call before
that one failed. -/
theorem main_loop_shape {ρ ε : Type} (lib : Lib ρ ε) (cfg : Config) (blocks : List dsdbuffer) :
    ∀ st : State ρ ε,
      ((main_loop lib cfg st blocks).1 = .eof →
        ∃ tr, (main_loop lib cfg st blocks).2.2 = tr ++ [.dsd_read none] ∧
          ∀ ev ∈ tr, ev.is_failure = false) ∧
      ((main_loop lib cfg st blocks).1 = .encoder_failed →
        ∃ tr s n, (main_loop lib cfg st blocks).2.2 = tr ++ [.process_interleaved s n false] ∧
          ∀ ev ∈ tr, ev.is_failure = false) := by
  induction blocks with
  | nil =>
    intro st
    refine ⟨fun _ => ⟨[], rfl, by simp⟩, fun h => ?_⟩
    simp [main_loop_nil] at h
  | cons b rest ih =>
    intro st
    rcases hb : loop_body lib cfg st b with ⟨_ | e, st1, tr⟩
    · have hc := loop_body_continue lib cfg st b (by rw [hb])
      rw [hb] at hc
      rw [main_loop_next rest hb]
      obtain ⟨ih1, ih2⟩ := ih st1
      constructor
      · intro h
        obtain ⟨tr', htr, hno⟩ := ih1 h
        refine ⟨tr ++ tr', by simp [htr], ?_⟩
        intro ev hev
        rcases List.mem_append.mp hev with h | h
        · exact hc ev h
        · exact hno ev h
      · intro h
        obtain ⟨tr', s, n, htr, hno⟩ := ih2 h
        refine ⟨tr ++ tr', s, n, by simp [htr], ?_⟩
        intro ev hev
        rcases List.mem_append.mp hev with h | h
        · exact hc ev h
        · exact hno ev h
    · rw [main_loop_stop rest hb]
      constructor
      · intro h
        have := loop_body_ne_eof lib cfg st b
        rw [hb] at this
        simp only at h
        subst h
        exact absurd rfl this
      · intro h
        simp only at h
        subst h
        have := loop_body_failed lib cfg st b (by rw [hb])
        rw [hb] at this
        exact this

theorem passes_main_loop {ρ ε : Type} (lib : Lib ρ ε) (cfg : Config) (pre more : List dsdbuffer) :
    ∀ (st st1 : State ρ ε) (tr : List Event), passes lib cfg st pre = some (st1, tr) →
      main_loop lib cfg st (pre ++ more) =
        ((main_loop lib cfg st1 more).1, (main_loop lib cfg st1 more).2.1,
          tr ++ (main_loop lib cfg st1 more).2.2) := by
  induction pre with
  | nil =>
    intro st st1 tr h
    simp only [passes, Option.some.injEq, Prod.mk.injEq] at h
    obtain ⟨h1, h2⟩ := h
    subst h1 h2
    simp
  | cons b rest ih =>
    intro st st1 tr h
    rcases hb : loop_body lib cfg st b with ⟨_ | e, st2, tr2⟩
    · simp only [passes, hb, Option.map_eq_some', Prod.mk.injEq] at h
      obtain ⟨⟨st3, tr3⟩, h3, h4, h5⟩ := h
      simp only at h4 h5
      subst h4 h5
      rw [List.cons_append, main_loop_next _ hb, ih st2 st3 tr3 h3]
      simp
    · simp [passes, hb] at h

theorem passes_calls {ρ ε : Type} (lib : Lib ρ ε) (cfg : Config) (pre : List dsdbuffer) :
    ∀ (st st1 : State ρ ε) (tr : List Event), passes lib cfg st pre = some (st1, tr) →
      ∀ ev ∈ tr, ev.is_loop_call = true := by
  intro st st1 tr h ev hev
  have h1 := passes_main_loop lib cfg pre [] st st1 tr h
  have h2 := main_loop_calls lib cfg (pre ++ []) st ev
  rw [h1] at h2
  exact h2 (List.mem_append.mpr (Or.inl hev))

theorem encode_frames_append (a b : List Event) :
    encode_frames (a ++ b) = encode_frames a ++ encode_frames b := by
  simp [encode_frames, List.filterMap_append]

theorem encode_frames_skip (ev : Event) (tr : List Event) (h : ev.encoded = none) :
    encode_frames (ev :: tr) = encode_frames tr := by
  simp [encode_frames, List.filterMap_cons, h]

theorem encode_frames_call (s : List Int) (n : Nat) (ok : Bool) (tr : List Event) :
    encode_frames (.process_interleaved s n ok :: tr) = n :: encode_frames tr := by
  simp [encode_frames, List.filterMap_cons, Event.encoded]

theorem main_loop_plain_calls {ρ ε : Type} (lib : Lib ρ ε) (cfg : Config)
    (hlim : cfg.freq_limit = 0) (blocks : List dsdbuffer) :
    ∀ st : State ρ ε, (main_loop lib cfg st blocks).1 ≠ .fatal ∧
      ∀ ev ∈ (main_loop lib cfg st blocks).2.2, ev.is_soxr_process = false := by
  induction blocks with
  | nil => intro st; simp [main_loop_nil, Event.is_soxr_process]
  | cons b rest ih =>
    intro st
    have hp := loop_body_plain lib cfg st b hlim
    dsimp only at hp
    by_cases hok : (lib.process_interleaved st.encoder (packed lib cfg st b true)
        (block_frames cfg.dop b)).snd = true
    · rw [if_pos hok] at hp
      rw [main_loop_next rest hp]
      refine ⟨(ih _).1, ?_⟩
      intro ev hev
      rcases List.mem_append.mp hev with h | h
      · clear hev
        revert ev
        simp only [List.forall_mem_cons, pack_call_soxr]
        simp [Event.is_soxr_process]
      · exact (ih _).2 ev h
    · rw [if_neg hok] at hp
      rw [main_loop_stop rest hp]
      refine ⟨by simp, ?_⟩
      simp only [List.forall_mem_cons, pack_call_soxr]
      simp [Event.is_soxr_process]

theorem main_loop_plain {ρ ε : Type} (lib : Lib ρ ε) (cfg : Config)
    (hlim : cfg.freq_limit = 0) (blocks : List dsdbuffer) :
    ∀ st : State ρ ε, (∀ ev ∈ (main_loop lib cfg st blocks).2.2, ev.is_failure = false) →
      (main_loop lib cfg st blocks).1 = .eof ∧
      encode_frames (main_loop lib cfg st blocks).2.2 = blocks.map (block_frames cfg.dop) := by
  induction blocks with
  | nil => intro st _; simp [main_loop_nil, encode_frames, Event.encoded]
  | cons b rest ih =>
    intro st hno
    have hp := loop_body_plain lib cfg st b hlim
    dsimp only at hp
    by_cases hok : (lib.process_interleaved st.encoder (packed lib cfg st b true)
        (block_frames cfg.dop b)).snd = true
    · rw [if_pos hok] at hp
      rw [main_loop_next rest hp] at hno ⊢
      obtain ⟨h1, h2⟩ := ih _ (fun ev hev => hno ev (List.mem_append.mpr (Or.inr hev)))
      refine ⟨h1, ?_⟩
      rw [encode_frames_append, h2, encode_frames_skip (.dsd_read (some b)) _ rfl,
        encode_frames_skip .dsd_buffer_msb_order _ rfl,
        encode_frames_skip _ _ (pack_call_encoded lib cfg b true), encode_frames_call]
      rfl
    · rw [if_neg hok] at hp
      rw [main_loop_stop rest hp] at hno
      simp only [Bool.not_eq_true] at hok
      have := hno (.process_interleaved (packed lib cfg st b true) (block_frames cfg.dop b)
        false) (by rw [hok]; simp)
      simp [Event.is_failure] at this

theorem loop_body_fits {ρ ε : Type} (lib : Lib ρ ε) (cfg : Config) (st : State ρ ε)
    (b : dsdbuffer) (hb : block_frames cfg.dop b ≤ cfg.max_frames) :
    ∀ ev ∈ (loop_body lib cfg st b).2.2, ev.fits cfg.max_frames := by
  by_cases hlim : cfg.freq_limit = 0
  · rw [loop_body_plain lib cfg st b hlim]
    simp only [List.forall_mem_cons, pack_call_fits]
    simp [Event.fits, hb]
  · rw [loop_body_limited lib cfg st b hlim]
    have ho := le_trans (toU32_le _) (lib.soxr_odone_le st.resampler
      (some (packed lib cfg st b false)) (block_frames cfg.dop b) st.pcmout2 cfg.max_frames)
    dsimp only
    split_ifs <;> simp only [List.forall_mem_cons, pack_call_fits, List.cons_append,
      List.nil_append] <;> simp [Event.fits, hb, ho]

theorem main_loop_fits {ρ ε : Type} (lib : Lib ρ ε) (cfg : Config) (blocks : List dsdbuffer)
    (hb : ∀ b ∈ blocks, block_frames cfg.dop b ≤ cfg.max_frames) :
    ∀ st : State ρ ε, ∀ ev ∈ (main_loop lib cfg st blocks).2.2, ev.fits cfg.max_frames := by
  induction blocks with
  | nil => intro st ev hev; simp [main_loop_nil] at hev; subst hev; exact True.intro
  | cons b rest ih =>
    intro st ev hev
    have hc := loop_body_fits lib cfg st b (hb b (List.mem_cons_self _ _))
    rcases hbody : loop_body lib cfg st b with ⟨_ | e, st1, tr⟩
    · rw [main_loop_next rest hbody] at hev
      rw [hbody] at hc
      rcases List.mem_append.mp hev with h | h
      · exact hc ev h
      · exact ih (fun b' hb' => hb b' (List.mem_cons_of_mem _ hb')) st1 ev h
    · rw [main_loop_stop rest hbody] at hev
      rw [hbody] at hc
      exact hc ev hev

/-! ## Lemmas: the drain -/

theorem drain_loop_succ {ρ ε : Type} (lib : Lib ρ ε) (cfg : Config) (fuel : Nat)
    (st : State ρ ε) :
    drain_loop lib cfg (fuel + 1) st =
      let o := lib.soxr_process st.resampler none 0 st.pcmout2 cfg.max_frames
      let pcmout2 := right_shift o.out (toU32 o.odone) cfg.channels
      let r := lib.process_interleaved st.encoder pcmout2 (toU32 o.odone)
      let st1 : State ρ ε := { st with resampler := o.handle, encoder := r.fst, pcmout2 := pcmout2 }
      let tr := [Event.soxr_process none 0 cfg.max_frames o.idone o.odone o.out,
        .right_shift (toU32 o.odone) cfg.channels, .process_interleaved pcmout2 (toU32 o.odone) r.snd]
      if o.odone ≠ 0 ∧ r.snd = true then
        (drain_loop lib cfg fuel st1).map fun res => (res.1, tr ++ res.2)
      else some (st1, tr) := rfl

theorem drain_loop_rounds {ρ ε : Type} (lib : Lib ρ ε) (cfg : Config)
    (hcap : cfg.max_frames < 2 ^ 32) (fuel : Nat) :
    ∀ (st st1 : State ρ ε) (tr : List Event), drain_loop lib cfg fuel st = some (st1, tr) →
      drain_rounds cfg.max_frames cfg.channels tr := by
  induction fuel with
  | zero => intro st st1 tr h; simp [drain_loop] at h
  | succ fuel ih =>
    intro st st1 tr h
    rw [drain_loop_succ] at h
    dsimp only at h
    have ho := lib.soxr_odone_le st.resampler none 0 st.pcmout2 cfg.max_frames
    have hu : toU32 (lib.soxr_process st.resampler none 0 st.pcmout2 cfg.max_frames).odone =
        (lib.soxr_process st.resampler none 0 st.pcmout2 cfg.max_frames).odone :=
      toU32_of_lt (lt_of_le_of_lt ho hcap)
    rw [hu] at h
    split_ifs at h with hgo
    · simp only [Option.map_eq_some', Prod.mk.injEq] at h
      obtain ⟨⟨st2, tr2⟩, h2, h3, h4⟩ := h
      simp only at h3 h4
      subst h3 h4
      simp only [List.cons_append, List.nil_append, drain_rounds, true_and]
      rw [if_pos hgo]
      exact ih _ _ _ h2
    · simp only [Option.some.injEq, Prod.mk.injEq] at h
      obtain ⟨h3, h4⟩ := h
      subst h3 h4
      simp only [drain_rounds, true_and]
      rw [if_neg hgo]
      exact True.intro

theorem drain_loop_calls {ρ ε : Type} (lib : Lib ρ ε) (cfg : Config) (fuel : Nat) :
    ∀ (st st1 : State ρ ε) (tr : List Event), drain_loop lib cfg fuel st = some (st1, tr) →
      (∀ ev ∈ tr, ev.is_drain_call = true) ∧ (∀ ev ∈ tr, ev.fits cfg.max_frames) := by
  induction fuel with
  | zero => intro st st1 tr h; simp [drain_loop] at h
  | succ fuel ih =>
    intro st st1 tr h
    rw [drain_loop_succ] at h
    dsimp only at h
    have ho := le_trans (toU32_le _)
      (lib.soxr_odone_le st.resampler none 0 st.pcmout2 cfg.max_frames)
    split_ifs at h with hgo
    · simp only [Option.map_eq_some', Prod.mk.injEq] at h
      obtain ⟨⟨st2, tr2⟩, h2, h3, h4⟩ := h
      simp only at h3 h4
      subst h3 h4
      obtain ⟨i2, i3⟩ := ih _ _ _ h2
      refine ⟨?_, ?_⟩
      · intro ev hev
        rcases List.mem_append.mp hev with h | h
        · clear hev; revert ev; simp [Event.is_drain_call]
        · exact i2 ev h
      · intro ev hev
        rcases List.mem_append.mp hev with h | h
        · clear hev; revert ev; simp [Event.fits, ho]
        · exact i3 ev h
    · simp only [Option.some.injEq, Prod.mk.injEq] at h
      obtain ⟨h3, h4⟩ := h
      subst h3 h4
      refine ⟨?_, ?_⟩
      · simp [Event.is_drain_call]
      · simp [Event.fits, ho]

/-- The drain ends when the resampler's backlog, measured by `μ`, goes down
with every drain call that still produces frames. -/
theorem drain_loop_halts {ρ ε : Type} (lib : Lib ρ ε) (cfg : Config) (μ : ρ → Nat)
    (hμ : ∀ r buf cap, (lib.soxr_process r none 0 buf cap).odone ≠ 0 →
      μ (lib.soxr_process r none 0 buf cap).handle < μ r) (fuel : Nat) :
    ∀ st : State ρ ε, μ st.resampler < fuel → (drain_loop lib cfg fuel st).isSome = true := by
  induction fuel with
  | zero => intro st h; omega
  | succ fuel ih =>
    intro st h
    rw [drain_loop_succ]
    dsimp only
    split_ifs with hgo
    · rw [Option.isSome_map']
      apply ih
      have := hμ st.resampler st.pcmout2 cfg.max_frames hgo.1
      simp only
      omega
    · rfl

/-! ## Lemmas: the whole run -/

theorem main_of_startup {ρ ε : Type} [Inhabited ρ] {lib : Lib ρ ε} {inp : Input}
    {cfg : Config} {st : State ρ ε} {tr0 : List Event} (fuel : Nat)
    (h : startup lib inp = .ok (cfg, st, tr0)) :
    main lib fuel inp =
      if (main_loop lib cfg st inp.blocks).1 = .fatal then
        some { status := 1, trace := tr0 ++ (main_loop lib cfg st inp.blocks).2.2 }
      else
        (drain lib cfg fuel (main_loop lib cfg st inp.blocks).2.1).map fun res =>
          { status := 0, trace := tr0 ++ (main_loop lib cfg st inp.blocks).2.2 ++ res.2 ++
              [.finish] } := by
  unfold main
  rw [h]
  dsimp only
  rcases hm : main_loop lib cfg st inp.blocks with ⟨e, st1, tr1⟩
  cases e
  · simp only [reduceCtorEq, if_false]
    cases drain lib cfg fuel st1 <;> rfl
  · simp only [reduceCtorEq, if_false]
    cases drain lib cfg fuel st1 <;> rfl
  · simp

theorem setup_calls_setup (m : Mode) (channels bsize : Nat) :
    ∀ ev ∈ setup_calls m channels bsize, ev.is_setup = true := by
  unfold setup_calls
  split_ifs <;> simp [Event.is_setup]

theorem Event.setup_kind {ev : Event} (h : ev.is_setup = true) :
    ev.encoded = none ∧ ev.is_soxr_process = false ∧ ev.is_failure = false ∧
    ev.is_dsd_read = false ∧ ev ≠ .finish ∧ ∀ n, ev.fits n := by
  cases ev <;> simp_all [Event.is_setup, Event.encoded, Event.is_soxr_process,
    Event.is_failure, Event.is_dsd_read, Event.fits]

theorem Event.loop_call_ne_finish {ev : Event} (h : ev.is_loop_call = true) : ev ≠ .finish := by
  cases ev <;> simp_all [Event.is_loop_call]

theorem Event.drain_call_kind {ev : Event} (h : ev.is_drain_call = true) :
    ev ≠ .finish ∧ ev.is_dsd_read = false := by
  cases ev <;> simp_all [Event.is_drain_call, Event.is_dsd_read]

theorem drain_calls {ρ ε : Type} (lib : Lib ρ ε) (cfg : Config)
    (fuel : Nat) (st st1 : State ρ ε) (tr : List Event)
    (h : drain lib cfg fuel st = some (st1, tr)) :
    (∀ ev ∈ tr, ev.is_drain_call = true) ∧ (∀ ev ∈ tr, ev.fits cfg.max_frames) := by
  unfold drain at h
  split_ifs at h
  · exact drain_loop_calls lib cfg fuel st st1 tr h
  · simp only [Option.some.injEq, Prod.mk.injEq] at h
    obtain ⟨-, h2⟩ := h
    subst h2
    simp

theorem drain_plain {ρ ε : Type} (lib : Lib ρ ε) (cfg : Config) (hlim : cfg.freq_limit = 0)
    (fuel : Nat) (st : State ρ ε) : drain lib cfg fuel st = some (st, []) := by
  simp [drain, hlim]

theorem drain_limited {ρ ε : Type} (lib : Lib ρ ε) (cfg : Config) (hlim : cfg.freq_limit ≠ 0)
    (fuel : Nat) (st : State ρ ε) : drain lib cfg fuel st = drain_loop lib cfg fuel st := by
  simp [drain, hlim]

theorem encode_frames_eq_nil {tr : List Event} (h : ∀ ev ∈ tr, ev.encoded = none) :
    encode_frames tr = [] := by
  induction tr with
  | nil => rfl
  | cons ev tr ih =>
    rw [encode_frames_skip ev tr (h ev (List.mem_cons_self _ _))]
    exact ih fun e he => h e (List.mem_cons_of_mem _ he)

theorem startup_trace_setup {ρ ε : Type} [Inhabited ρ] {lib : Lib ρ ε} {inp : Input}
    {cfg : Config} {st : State ρ ε} {tr : List Event}
    (h : startup lib inp = .ok (cfg, st, tr)) : ∀ ev ∈ tr, ev.is_setup = true := by
  rw [(startup_ok_inv h).2.1]
  exact setup_calls_setup _ _ _

/-- In a list cut after a first part without failed calls, what follows a
failed call lies in the second part. -/
theorem split_after_failure {a b init post : List Event} {x : Event}
    (h : a ++ b = init ++ x :: post) (ha : ∀ y ∈ a, y.is_failure = false)
    (hx : x.is_failure = true) : ∃ init', b = init' ++ x :: post := by
  rcases List.append_eq_append_iff.mp h with ⟨a', h1, h2⟩ | ⟨c', h1, h2⟩
  · exact ⟨a', h2⟩
  · cases c' with
    | nil => exact ⟨[], by simpa using h2.symm⟩
    | cons c cs =>
      simp only [List.cons_append, List.cons.injEq] at h2
      have hmem : x ∈ a := by rw [h1, h2.1]; simp
      rw [ha x hmem] at hx
      cases hx

theorem mem_tail_of_split {y x : Event} {b init post : List Event}
    (h : y :: b = init ++ x :: post) : ∀ ev ∈ post, ev ∈ b := by
  intro ev hev
  cases init with
  | nil =>
    simp only [List.nil_append, List.cons.injEq] at h
    rw [h.2]; exact hev
  | cons c cs =>
    simp only [List.cons_append, List.cons.injEq] at h
    rw [h.2]; simp [hev]

/-! ## The claims -/

/-- C1: when limiting is off and every encoder call succeeds, the run returns
with status 0 for every `fuel`, its `process_interleaved` calls are one per
block, in block order, the k-th with the frame count of block k
(`bytes_per_channel` in direct mode, `bytes_per_channel / 2` in DoP mode), so
their number is the number of blocks and their frame counts sum to the total
of the blocks; it makes no `soxr_process` call; and `finish` is called once,
as the last call. -/
theorem plain_run_encodes_every_block {ρ ε : Type} [Inhabited ρ] (lib : Lib ρ ε) (inp : Input)
    (cfg : Config) (st : State ρ ε) (tr0 : List Event) (fuel : Nat)
    (hstart : startup lib inp = .ok (cfg, st, tr0))
    (hlim : cfg.freq_limit = 0)
    (hok : ∀ ev ∈ (main_loop lib cfg st inp.blocks).2.2, ev.is_failure = false) :
    ∃ out, main lib fuel inp = some out ∧ out.status = 0 ∧
      encode_frames out.trace = inp.blocks.map (block_frames cfg.dop) ∧
      (encode_frames out.trace).length = inp.blocks.length ∧
      (encode_frames out.trace).sum = (inp.blocks.map (block_frames cfg.dop)).sum ∧
      (∀ ev ∈ out.trace, ev.is_soxr_process = false) ∧
      out.trace.count .finish = 1 ∧ out.trace.getLast? = some .finish := by
  have hs := startup_trace_setup hstart
  obtain ⟨heof, henc⟩ := main_loop_plain lib cfg hlim inp.blocks st hok
  obtain ⟨-, hsox⟩ := main_loop_plain_calls lib cfg hlim inp.blocks st
  have hl := main_loop_calls lib cfg inp.blocks st
  have hmain : main lib fuel inp = some { status := 0, trace := tr0 ++
      (main_loop lib cfg st inp.blocks).2.2 ++ [] ++ [.finish] } := by
    rw [main_of_startup fuel hstart, if_neg (by rw [heof]; simp), drain_plain lib cfg hlim]
    rfl
  have hfr : encode_frames (tr0 ++ (main_loop lib cfg st inp.blocks).2.2 ++ [] ++ [.finish]) =
      inp.blocks.map (block_frames cfg.dop) := by
    rw [encode_frames_append, encode_frames_append, encode_frames_append, henc,
      encode_frames_eq_nil fun ev hev => (Event.setup_kind (hs ev hev)).1]
    simp [encode_frames, Event.encoded]
  refine ⟨_, hmain, rfl, hfr, ?_, ?_, ?_, ?_, ?_⟩
  · rw [hfr, List.length_map]
  · rw [hfr]
  · intro ev hev
    simp only [List.append_nil, List.mem_append, List.mem_singleton] at hev
    rcases hev with (h | h) | h
    · exact (Event.setup_kind (hs ev h)).2.1
    · exact hsox ev h
    · subst h; rfl
  · have h0 : tr0.count .finish = 0 :=
      List.count_eq_zero.mpr fun h => (Event.setup_kind (hs _ h)).2.2.2.2.1 rfl
    have h1 : (main_loop lib cfg st inp.blocks).2.2.count .finish = 0 :=
      List.count_eq_zero.mpr fun h => Event.loop_call_ne_finish (hl _ h) rfl
    simp [List.count_append, h0, h1]
  · simp

/-- C1, on a DoP run over the two blocks of `sampleInput`: two encoder calls,
of 2 and 1 frames. -/
theorem plain_run_encodes_every_block_witness :
    ∃ out, main (sampleLib id fun _ => true) 0 (sampleInput 0 true) = some out ∧
      out.status = 0 ∧ encode_frames out.trace = [2, 1] ∧
      (encode_frames out.trace).length = 2 ∧ (encode_frames out.trace).sum = 3 ∧
      (∀ ev ∈ out.trace, ev.is_soxr_process = false) ∧
      out.trace.count .finish = 1 ∧ out.trace.getLast? = some .finish :=
  plain_run_encodes_every_block (sampleLib id fun _ => true) (sampleInput 0 true) _ _ _ 0
    rfl rfl (by decide)

/-- C2: on a run that reaches the main loop and does not end in the fatal
resample error, whenever the run returns its status is 0, `finish` is called
exactly once and is the last call of the run, and no `dsd_read` follows a
`process_interleaved` call that failed. The run does return: for every `fuel`
when limiting is off, and for some `fuel` as soon as every drain call that
produces frames lowers a measure `μ` of the resampler's state. -/
theorem finish_called_once_last {ρ ε : Type} [Inhabited ρ] (lib : Lib ρ ε) (inp : Input)
    (cfg : Config) (st : State ρ ε) (tr0 : List Event)
    (hstart : startup lib inp = .ok (cfg, st, tr0))
    (hnf : (main_loop lib cfg st inp.blocks).1 ≠ .fatal) :
    (∀ fuel out, main lib fuel inp = some out →
      out.status = 0 ∧ out.trace.count .finish = 1 ∧ out.trace.getLast? = some .finish ∧
      ∀ init post s n, out.trace = init ++ .process_interleaved s n false :: post →
        ∀ ev ∈ post, ev.is_dsd_read = false) ∧
    (cfg.freq_limit = 0 → ∀ fuel, (main lib fuel inp).isSome = true) ∧
    (∀ μ : ρ → Nat,
      (∀ r buf cap, (lib.soxr_process r none 0 buf cap).odone ≠ 0 →
        μ (lib.soxr_process r none 0 buf cap).handle < μ r) →
      ∃ fuel, (main lib fuel inp).isSome = true) := by
  have hs := startup_trace_setup hstart
  have hl := main_loop_calls lib cfg inp.blocks st
  obtain ⟨sh1, sh2⟩ := main_loop_shape lib cfg inp.blocks st
  refine ⟨?_, ?_, ?_⟩
  · intro fuel out hout
    rw [main_of_startup fuel hstart, if_neg hnf] at hout
    simp only [Option.map_eq_some'] at hout
    obtain ⟨⟨st2, tr2⟩, hd, hout⟩ := hout
    subst hout
    obtain ⟨hdc, -⟩ := drain_calls lib cfg fuel _ st2 tr2 hd
    have hread : ∀ ev ∈ tr2 ++ [Event.finish], ev.is_dsd_read = false := by
      intro ev hev
      rcases List.mem_append.mp hev with h | h
      · exact (Event.drain_call_kind (hdc ev h)).2
      · simp only [List.mem_singleton] at h; subst h; rfl
    refine ⟨rfl, ?_, by simp, ?_⟩
    · have h0 : tr0.count .finish = 0 :=
        List.count_eq_zero.mpr fun h => (Event.setup_kind (hs _ h)).2.2.2.2.1 rfl
      have h1 : (main_loop lib cfg st inp.blocks).2.2.count .finish = 0 :=
        List.count_eq_zero.mpr fun h => Event.loop_call_ne_finish (hl _ h) rfl
      have h2 : tr2.count .finish = 0 :=
        List.count_eq_zero.mpr fun h => (Event.drain_call_kind (hdc _ h)).1 rfl
      simp [List.count_append, h0, h1, h2]
    · intro init post s n hsplit
      simp only at hsplit
      have hx : (Event.process_interleaved s n false).is_failure = true := rfl
      have hs0 : ∀ y ∈ tr0, y.is_failure = false :=
        fun y hy => (Event.setup_kind (hs y hy)).2.2.1
      rcases hexit : (main_loop lib cfg st inp.blocks).1 with _ | _ | _
      · obtain ⟨t, ht, hno⟩ := sh1 hexit
        rw [ht] at hsplit
        have ha : ∀ y ∈ tr0 ++ (t ++ [Event.dsd_read none]), y.is_failure = false := by
          intro y hy
          simp only [List.mem_append, List.mem_singleton] at hy
          rcases hy with h | h | h
          · exact hs0 y h
          · exact hno y h
          · subst h; rfl
        obtain ⟨init', hb⟩ := split_after_failure
          (a := tr0 ++ (t ++ [Event.dsd_read none])) (b := tr2 ++ [Event.finish])
          (by rw [← hsplit]; simp) ha hx
        intro ev hev
        exact hread ev (by rw [hb]; simp [hev])
      · obtain ⟨t, s0, n0, ht, hno⟩ := sh2 hexit
        rw [ht] at hsplit
        have ha : ∀ y ∈ tr0 ++ t, y.is_failure = false := by
          intro y hy
          rcases List.mem_append.mp hy with h | h
          · exact hs0 y h
          · exact hno y h
        obtain ⟨init', hb⟩ := split_after_failure
          (a := tr0 ++ t) (b := Event.process_interleaved s0 n0 false :: (tr2 ++ [Event.finish]))
          (by rw [← hsplit]; simp) ha hx
        intro ev hev
        exact hread ev (mem_tail_of_split hb ev hev)
      · exact absurd hexit hnf
  · intro hlim fuel
    rw [main_of_startup fuel hstart, if_neg hnf, drain_plain lib cfg hlim]
    rfl
  · intro μ hμ
    refine ⟨μ (main_loop lib cfg st inp.blocks).2.1.resampler + 1, ?_⟩
    rw [main_of_startup _ hstart, if_neg hnf, Option.isSome_map']
    by_cases hlim : cfg.freq_limit = 0
    · rw [drain_plain lib cfg hlim]; rfl
    · rw [drain_limited lib cfg hlim]
      exact drain_loop_halts lib cfg μ hμ _ _ (Nat.lt_succ_self _)

/-- C2, on a limited run whose second encoder call fails: the run returns
with status 0 and `finish` is its last call, made once. -/
theorem finish_called_once_last_witness :
    ∃ out, main (sampleLib id fun k => decide (k < 1)) 2 (sampleInput 44100 true) = some out ∧
      out.status = 0 ∧ out.trace.count .finish = 1 ∧ out.trace.getLast? = some .finish :=
  have h := (finish_called_once_last (sampleLib id fun k => decide (k < 1))
    (sampleInput 44100 true) _ _ _ rfl (by decide)).1 2 _ rfl
  ⟨_, rfl, h.1, h.2.1, h.2.2.1⟩

/-- C3: with limiting active, when the blocks `front` have gone through the
main loop and `soxr_process` reports for the next block `b` a consumed count
different from the frames offered, the run ends with status 1; after that
`soxr_process` call it only makes the `right_shift` and `process_interleaved`
calls of the same pass and the `error` call: no `dsd_read`, no second
`soxr_process`, no drain, and `finish` is never called. -/
theorem short_consumption_is_fatal {ρ ε : Type} [Inhabited ρ] (lib : Lib ρ ε) (inp : Input)
    (cfg : Config) (st0 st : State ρ ε) (tr0 tr : List Event)
    (front rest : List dsdbuffer) (b : dsdbuffer) (fuel : Nat)
    (hstart : startup lib inp = .ok (cfg, st0, tr0))
    (hlim : cfg.freq_limit ≠ 0)
    (hblocks : inp.blocks = front ++ b :: rest)
    (hfront : passes lib cfg st0 front = some (st, tr))
    (hpart : (lib.soxr_process st.resampler (some (packed lib cfg st b false))
      (block_frames cfg.dop b) st.pcmout2 cfg.max_frames).idone ≠ block_frames cfg.dop b) :
    main lib fuel inp = some { status := 1, trace := tr0 ++ tr ++ limited_pass lib cfg st b ++
      [.error "not resampled all frames"] } ∧
    Event.finish ∉ tr0 ++ tr ++ limited_pass lib cfg st b ++
      [Event.error "not resampled all frames"] := by
  have hbody := loop_body_limited lib cfg st b hlim
  dsimp only at hbody
  rw [if_pos hpart, if_pos hpart] at hbody
  have hloop := passes_main_loop lib cfg front (b :: rest) st0 st tr hfront
  rw [main_loop_stop rest hbody] at hloop
  constructor
  · rw [main_of_startup fuel hstart, hblocks, hloop]
    simp [limited_pass]
  · have hs := startup_trace_setup hstart
    have hp := passes_calls lib cfg front st0 st tr hfront
    have hb := loop_body_calls lib cfg st b
    rw [hbody] at hb
    intro hmem
    simp only [List.mem_append] at hmem
    rcases hmem with ((h | h) | h) | h
    · exact (Event.setup_kind (hs _ h)).2.2.2.2.1 rfl
    · exact Event.loop_call_ne_finish (hp _ h) rfl
    · exact Event.loop_call_ne_finish (hb _ (List.mem_append.mpr (Or.inl h))) rfl
    · simp at h

/-- C3, on a run of four blocks whose resampler takes only 1 of the 2 frames
of the second block: the run ends with status 1 in that pass, with the
`error` call as its last call and no `finish`. -/
theorem short_consumption_is_fatal_witness :
    ∃ out, main (sampleLib (fun n => if n = 2 then 1 else n) fun _ => true) 0
        (sampleInput4 44100 true) = some out ∧
      out.status = 1 ∧ out.trace.getLast? = some (.error "not resampled all frames") ∧
      (out.trace.filter Event.is_dsd_read).length = 2 ∧ Event.finish ∉ out.trace :=
  have h := short_consumption_is_fatal
    (sampleLib (fun n => if n = 2 then 1 else n) fun _ => true) (sampleInput4 44100 true)
    _ _ _ _ _ [sampleBlockA] [sampleBlockA, sampleBlockB] sampleBlockB 0
    rfl (by decide) rfl rfl (by decide)
  ⟨_, h.1, rfl, by decide, by decide, h.2⟩

/-- C4: on a run that reaches the drain and returns, the calls between the
main loop and `finish` are, with limiting active, rounds of `soxr_process`
with no input, 0 frames and output capacity `max_frames`, then `right_shift`
over the frames produced and all channels, then `process_interleaved` on the
shifted buffer, a further round following exactly when the round produced
frames and the encoder accepted them (the last round, which produced no frame
or whose encoder call failed, is made of the same three calls); with limiting
inactive there is no call between the main loop and `finish`. The drain ends
as soon as every drain call that produces frames lowers a measure `μ` of the
resampler's state. -/
theorem drain_runs_until_empty {ρ ε : Type} [Inhabited ρ] (lib : Lib ρ ε) (inp : Input)
    (cfg : Config) (st : State ρ ε) (tr0 : List Event)
    (hstart : startup lib inp = .ok (cfg, st, tr0))
    (hcap : inp.buffer.max_bytes_per_ch < 2 ^ 32)
    (hnf : (main_loop lib cfg st inp.blocks).1 ≠ .fatal) :
    (∀ fuel out, main lib fuel inp = some out →
      ∃ tr2, out.trace = tr0 ++ (main_loop lib cfg st inp.blocks).2.2 ++ tr2 ++ [.finish] ∧
        (cfg.freq_limit ≠ 0 → drain_rounds cfg.max_frames cfg.channels tr2) ∧
        (cfg.freq_limit = 0 → tr2 = [])) ∧
    (∀ μ : ρ → Nat,
      (∀ r buf cap, (lib.soxr_process r none 0 buf cap).odone ≠ 0 →
        μ (lib.soxr_process r none 0 buf cap).handle < μ r) →
      ∃ fuel, (main lib fuel inp).isSome = true) := by
  have hmax : cfg.max_frames < 2 ^ 32 := by
    rw [(startup_ok_inv hstart).1]
    simp only [max_frames_of]
    split_ifs
    · exact lt_of_le_of_lt (Nat.div_le_self _ _) hcap
    · exact hcap
  constructor
  · intro fuel out hout
    rw [main_of_startup fuel hstart, if_neg hnf] at hout
    simp only [Option.map_eq_some'] at hout
    obtain ⟨⟨st2, tr2⟩, hd, hout⟩ := hout
    subst hout
    refine ⟨tr2, rfl, ?_, ?_⟩
    · intro hlim
      rw [drain_limited lib cfg hlim] at hd
      exact drain_loop_rounds lib cfg hmax fuel _ st2 tr2 hd
    · intro hlim
      rw [drain_plain lib cfg hlim] at hd
      simp only [Option.some.injEq, Prod.mk.injEq] at hd
      exact hd.2.symm
  · intro μ hμ
    refine ⟨μ (main_loop lib cfg st inp.blocks).2.1.resampler + 1, ?_⟩
    rw [main_of_startup _ hstart, if_neg hnf, Option.isSome_map']
    by_cases hlim : cfg.freq_limit = 0
    · rw [drain_plain lib cfg hlim]; rfl
    · rw [drain_limited lib cfg hlim]
      exact drain_loop_halts lib cfg μ hμ _ _ (Nat.lt_succ_self _)

/-- C4, on a limited run of `sampleLib`, whose resampler state is its backlog:
the drain ends. -/
theorem drain_runs_until_empty_witness :
    ∃ fuel, (main (sampleLib id fun _ => true) fuel (sampleInput 44100 true)).isSome = true :=
  (drain_runs_until_empty (sampleLib id fun _ => true) (sampleInput 44100 true) _ _ _ rfl
    (by decide) (by decide)).2 id (by
      intro r buf cap h
      simp only [sampleLib, Option.isSome_none, Bool.false_eq_true, if_false, id] at h ⊢
      omega)

/-- C9: the capacity `max_frames` is the one computed at line 272; when no
block is larger than the decoder's `max_bytes_per_ch`, the frame count
assigned to each block is at most `max_frames`, and in every run each
`soxr_process` call, in the main loop and in the drain, offers at most
`max_frames` frames and is given exactly `max_frames` as output capacity,
and each `process_interleaved` call passes at most `max_frames` frames. The
capacity is a field of `Config`, which no step of the run writes. -/
theorem stage_buffers_fit {ρ ε : Type} [Inhabited ρ] (lib : Lib ρ ε) (inp : Input)
    (cfg : Config) (st : State ρ ε) (tr0 : List Event)
    (hstart : startup lib inp = .ok (cfg, st, tr0))
    (hblocks : ∀ b ∈ inp.blocks, b.bytes_per_channel ≤ inp.buffer.max_bytes_per_ch) :
    cfg.max_frames = max_frames_of cfg.dop inp.buffer ∧
    (∀ b ∈ inp.blocks, block_frames cfg.dop b ≤ cfg.max_frames) ∧
    ∀ fuel out, main lib fuel inp = some out → ∀ ev ∈ out.trace, ev.fits cfg.max_frames := by
  have hmax : cfg.max_frames = max_frames_of cfg.dop inp.buffer := by
    rw [(startup_ok_inv hstart).1]
  have hfr : ∀ b ∈ inp.blocks, block_frames cfg.dop b ≤ cfg.max_frames := by
    intro b hb
    rw [hmax]
    simp only [block_frames, max_frames_of]
    split_ifs
    · exact Nat.div_le_div_right (hblocks b hb)
    · exact hblocks b hb
  refine ⟨hmax, hfr, ?_⟩
  intro fuel out hout ev hev
  have hs := startup_trace_setup hstart
  have hl := main_loop_fits lib cfg inp.blocks hfr st
  rw [main_of_startup fuel hstart] at hout
  split_ifs at hout with hfatal
  · simp only [Option.some.injEq] at hout
    subst hout
    rcases List.mem_append.mp hev with h | h
    · exact (Event.setup_kind (hs ev h)).2.2.2.2.2 _
    · exact hl ev h
  · simp only [Option.map_eq_some'] at hout
    obtain ⟨⟨st2, tr2⟩, hd, hout⟩ := hout
    subst hout
    obtain ⟨-, hdf⟩ := drain_calls lib cfg fuel _ st2 tr2 hd
    simp only [List.mem_append, List.mem_singleton] at hev
    rcases hev with ((h | h) | h) | h
    · exact (Event.setup_kind (hs ev h)).2.2.2.2.2 _
    · exact hl ev h
    · exact hdf ev h
    · subst h; exact True.intro

/-- C9, on a limited run of `sampleLib` over blocks of at most 4 bytes per
channel: the capacity is 4 frames and the two blocks have 4 and 2 frames. -/
theorem stage_buffers_fit_witness :
    block_frames false sampleBlockA ≤ 4 ∧ block_frames false sampleBlockB ≤ 4 :=
  have h := (stage_buffers_fit (sampleLib id fun _ => true) (sampleInput 44100 true) _ _ _ rfl
    (by decide)).2.1
  ⟨h sampleBlockA (by decide), h sampleBlockB (by decide)⟩

/-- C5: when DoP is requested with a non-zero ceiling below a sixteenth of the
source frequency, mode selection gives direct PCM, working rate
`frequency / 8` and leaves the ceiling as the limiting target; the set-up
then reaches the main loop whenever `malloc`, `init_stream` and
`resample_create` succeed (the fallback raises no error), and it creates the
resampler from `frequency / 8` to the ceiling. -/
theorem dop_fallback_to_direct {ρ ε : Type} [Inhabited ρ] (lib : Lib ρ ε) (inp : Input)
    (hdop : inp.dop = true) (hc : inp.freq_limit ≠ 0)
    (hlt : inp.freq_limit < inp.frequency / 16) :
    select_mode inp.frequency inp.freq_limit inp.dop =
      { dop := false, sample_rate := inp.frequency / 8, freq_limit := inp.freq_limit } ∧
    (∀ cfg st tr, startup lib inp = .ok (cfg, st, tr) →
      cfg.dop = false ∧ cfg.sample_rate = inp.frequency / 8 ∧
      cfg.freq_limit = inp.freq_limit ∧
      Event.resample_create (inp.frequency / 8) inp.freq_limit inp.channels true ∈ tr) ∧
    (∀ p1 p2 e r,
      lib.malloc 0 (bsize_of (max_frames_of false inp.buffer) inp.channels) = some p1 →
      lib.init_stream inp.channels inp.freq_limit 24 0 = some e →
      lib.resample_create inp.resample_str (inp.frequency / 8) inp.freq_limit inp.channels
        = some r →
      lib.malloc 1 (bsize_of (max_frames_of false inp.buffer) inp.channels) = some p2 →
      ∃ cfg st tr, startup lib inp = .ok (cfg, st, tr)) := by
  have hm : select_mode inp.frequency inp.freq_limit inp.dop =
      { dop := false, sample_rate := inp.frequency / 8, freq_limit := inp.freq_limit } := by
    simp only [select_mode, hdop, ne_eq, hc, not_false_eq_true, hlt, and_self, if_true,
      Bool.false_eq_true, if_false, Mode.mk.injEq, true_and]
    rw [if_neg]
    omega
  refine ⟨hm, ?_, ?_⟩
  · intro cfg st tr h
    obtain ⟨h1, h2, -⟩ := startup_ok_inv h
    rw [hm] at h1 h2
    subst h1 h2
    simp [setup_calls, hc]
  · intro p1 p2 e r h0 h1 h2 h3
    simp [startup, halfrate, hm, hc, h0, h1, h2, h3]

/-- C5, at the spec's numbers: 2822400 Hz, DoP requested, ceiling 44100 give
direct mode at 352800 Hz with the ceiling kept. -/
theorem dop_fallback_to_direct_witness :
    select_mode 2822400 44100 true =
      { dop := false, sample_rate := 352800, freq_limit := 44100 } :=
  (dop_fallback_to_direct (sampleLib id fun _ => true) (sampleInput 44100 true) rfl
    (by decide) (by decide)).1

/-- C6: when DoP is requested and the ceiling is 0, mode selection keeps DoP
with working rate `frequency / 16` and no limiting; a set-up that reaches the
main loop makes no `resample_create` call and a single `malloc` (Stage Buffer
2 stays `NULL`), and a set-up that fails makes no `resample_create` call
either. At 2822400 Hz the working rate is 176400. -/
theorem dop_retained_unconstrained {ρ ε : Type} [Inhabited ρ] (lib : Lib ρ ε) (inp : Input)
    (hdop : inp.dop = true) (hc : inp.freq_limit = 0) :
    select_mode inp.frequency inp.freq_limit inp.dop =
      { dop := true, sample_rate := inp.frequency / 16, freq_limit := 0 } ∧
    (∀ cfg st tr, startup lib inp = .ok (cfg, st, tr) →
      cfg.dop = true ∧ cfg.sample_rate = inp.frequency / 16 ∧ cfg.freq_limit = 0 ∧
      (∀ ev ∈ tr, ev.is_resample_create = false) ∧ (malloc_sizes tr).length = 1 ∧
      st.pcmout2 = []) ∧
    (∀ tr, startup lib inp = .error tr → ∀ ev ∈ tr, ev.is_resample_create = false) ∧
    (select_mode 2822400 0 true).sample_rate = 176400 := by
  have hm : select_mode inp.frequency inp.freq_limit inp.dop =
      { dop := true, sample_rate := inp.frequency / 16, freq_limit := 0 } := by
    simp [select_mode, hdop, hc]
  refine ⟨hm, ?_, ?_, by decide⟩
  · intro cfg st tr h
    obtain ⟨h1, h2, h3⟩ := startup_ok_inv h
    rw [hm] at h1 h2 h3
    subst h1 h2
    refine ⟨rfl, rfl, rfl, ?_, ?_, h3 rfl⟩
    · simp [setup_calls, Event.is_resample_create]
    · simp [setup_calls, malloc_sizes, Event.allocated]
  · intro tr h
    unfold startup at h
    simp only [halfrate, hm] at h
    split at h
    · simp only [Except.error.injEq] at h
      subst h
      simp [Event.is_resample_create]
    · split at h
      · simp only [Except.error.injEq] at h
        subst h
        simp [Event.is_resample_create]
      · simp at h

/-- C6, on a DoP run of `sampleLib` without ceiling. -/
theorem dop_retained_unconstrained_witness :
    select_mode 2822400 0 true = { dop := true, sample_rate := 176400, freq_limit := 0 } :=
  (dop_retained_unconstrained (sampleLib id fun _ => true) (sampleInput 0 true) rfl rfl).1

/-- C7, at the input where the code departs from it: with a 2822400 Hz source,
direct PCM and a ceiling of 352800, equal to the working rate, line 262 keeps
the ceiling, and the set-up creates a resampler from 352800 to 352800 and
allocates Stage Buffer 2. -/
theorem ceiling_equal_to_rate_keeps_limiting :
    select_mode 2822400 352800 false =
      { dop := false, sample_rate := 352800, freq_limit := 352800 } ∧
    ∃ cfg st tr, startup (sampleLib id fun _ => true) (sampleInput 352800 false) =
        .ok (cfg, st, tr) ∧ cfg.freq_limit = 352800 ∧ cfg.sample_rate = 352800 ∧
      Event.resample_create 352800 352800 2 true ∈ tr ∧ malloc_sizes tr = [32, 32] :=
  ⟨by decide, _, _, _, rfl, rfl, rfl, by decide, by decide⟩

/-- C8, as stated, fails where the 32-bit product `max_frames * channels`
wraps: with `max_bytes_per_ch = 2147483648`, 2 channels and direct mode the
capacity is 2147483648 frames, capacity × channels × 4 is 17179869184, and
the buffer is allocated with 0 bytes. -/
theorem stage_buffer_size_wraps :
    ∃ cfg st tr, startup (sampleLib id fun _ => true)
        { sampleInput 0 false with
          buffer := { max_bytes_per_ch := 2147483648, bytes_per_channel := 0, data := [] } } =
        .ok (cfg, st, tr) ∧
      cfg.dop = false ∧ cfg.max_frames = 2147483648 ∧ malloc_sizes tr = [0] ∧
      cfg.max_frames * 2 * 4 = 17179869184 :=
  ⟨_, _, _, rfl, rfl, rfl, by decide, by decide⟩

/-- C8 (amended): the capacity in frames is the decoder's `max_bytes_per_ch`
in direct mode and `max_bytes_per_ch / 2` in DoP mode; when capacity ×
channels is below `2 ^ 32`, a set-up that reaches the main loop allocates
Stage Buffer 1 with capacity × channels × 4 bytes, and allocates Stage Buffer
2, with the same size, exactly when limiting is active (otherwise it stays
`NULL`). With `max_bytes_per_ch = 4096` the capacity is 2048 in DoP mode and
4096 in direct mode. -/
theorem stage_buffer_sizes {ρ ε : Type} [Inhabited ρ] (lib : Lib ρ ε) (inp : Input)
    (cfg : Config) (st : State ρ ε) (tr : List Event)
    (hstart : startup lib inp = .ok (cfg, st, tr))
    (hfit : cfg.max_frames * inp.channels < 2 ^ 32) :
    cfg.max_frames =
      (if cfg.dop then inp.buffer.max_bytes_per_ch / 2 else inp.buffer.max_bytes_per_ch) ∧
    malloc_sizes tr =
      (if cfg.freq_limit ≠ 0 then
        [cfg.max_frames * inp.channels * 4, cfg.max_frames * inp.channels * 4]
      else [cfg.max_frames * inp.channels * 4]) ∧
    (cfg.freq_limit = 0 → st.pcmout2 = []) ∧
    max_frames_of true { max_bytes_per_ch := 4096, bytes_per_channel := 0, data := [] } = 2048 ∧
    max_frames_of false { max_bytes_per_ch := 4096, bytes_per_channel := 0, data := [] } = 4096 := by
  obtain ⟨h1, h2, h3⟩ := startup_ok_inv hstart
  have hb : bsize_of cfg.max_frames inp.channels = cfg.max_frames * inp.channels * 4 := by
    have h4 : cfg.max_frames * inp.channels * 4 < 2 ^ 64 := by omega
    simp only [bsize_of, toU32, toSize, sizeof_s32, Nat.mod_eq_of_lt hfit, Nat.mod_eq_of_lt h4]
  subst h1
  simp only at hb
  refine ⟨rfl, ?_, h3, by decide, by decide⟩
  rw [h2, hb]
  simp only [setup_calls]
  split_ifs <;> simp [malloc_sizes, Event.allocated]

/-- C8, at the spec's numbers in direct mode with limiting: two buffers of
4096 × 2 × 4 bytes. -/
theorem stage_buffer_sizes_witness :
    ∃ cfg st tr, startup (sampleLib id fun _ => true)
        { sampleInput 44100 false with
          buffer := { max_bytes_per_ch := 4096, bytes_per_channel := 0, data := [] } } =
        .ok (cfg, st, tr) ∧ cfg.max_frames = 4096 ∧ malloc_sizes tr = [32768, 32768] :=
  ⟨_, _, _, rfl, (stage_buffer_sizes (sampleLib id fun _ => true)
      { sampleInput 44100 false with
        buffer := { max_bytes_per_ch := 4096, bytes_per_channel := 0, data := [] } }
      _ _ _ rfl (by decide)).1,
    by decide⟩

/-- C10, as stated, fails where the 32-bit product `frames * channels` wraps:
on a block of `2 ^ 32` samples, all 256, with 65536 frames of 65536 channels,
`count` is 0 and the first sample stays 256 instead of becoming 1. -/
theorem right_shift_count_wraps :
    65536 * 65536 ≤ (List.replicate (2 ^ 32) (256 : Int)).length ∧
    (right_shift (List.replicate (2 ^ 32) 256) 65536 65536)[0]? = some 256 ∧
    ⌊((256 : Int) : ℚ) / 256⌋ = 1 := by
  have hcount : toU32 (toU32 65536 * toU32 65536) = 0 := by decide
  refine ⟨?_, ?_, by norm_num⟩
  · rw [List.length_replicate]; norm_num
  · rw [right_shift, hcount, right_shift_loop_zero, List.getElem?_replicate,
      if_pos (by norm_num)]

/-- C10 (amended): when `frames * channels` is at most the block length and
below `2 ^ 32`, `right_shift` keeps the block length, replaces each of the
first `frames * channels` samples `x` by `floor (x / 256)`, leaves the
samples from that index on unchanged, and keeps the sign of every sample
negative when it was negative; `-1` stays `-1`. -/
theorem right_shift_floor_div (ptr : List Int) (frames channels : Nat)
    (hlen : frames * channels ≤ ptr.length) (hfit : frames * channels < 2 ^ 32) :
    (right_shift ptr frames channels).length = ptr.length ∧
    (∀ i : Nat, i < frames * channels → ∃ x : Int, ptr[i]? = some x ∧
      (right_shift ptr frames channels)[i]? = some ⌊(x : ℚ) / 256⌋) ∧
    (∀ i : Nat, frames * channels ≤ i → (right_shift ptr frames channels)[i]? = ptr[i]?) ∧
    (∀ (i : Nat) (x y : Int), ptr[i]? = some x →
      (right_shift ptr frames channels)[i]? = some y → (x < 0 ↔ y < 0)) ∧
    right_shift [-1] 1 1 = [-1] := by
  have hshift : ∀ i, i < frames * channels →
      (right_shift ptr frames channels)[i]? = ptr[i]?.map fun x : Int => x >>> (8 : Nat) := by
    intro i hi
    have hin : i < ((ptr.take (frames * channels)).map fun x : Int => x >>> (8 : Nat)).length := by
      rw [List.length_map, List.length_take]
      exact lt_min hi (lt_of_lt_of_le hi hlen)
    rw [right_shift_eq hfit, List.getElem?_append_left hin, List.getElem?_map,
      List.getElem?_take_of_lt hi]
  have hkeep : ∀ i, frames * channels ≤ i → (right_shift ptr frames channels)[i]? = ptr[i]? := by
    intro i hi
    have hlen' : ((ptr.take (frames * channels)).map fun x : Int => x >>> (8 : Nat)).length =
        frames * channels := by
      rw [List.length_map, List.length_take]
      exact min_eq_left hlen
    rw [right_shift_eq hfit, List.getElem?_append_right (by rw [hlen']; exact hi),
      List.getElem?_drop, hlen']
    congr 1
    omega
  have hsign : ∀ x : Int, (x < 0 ↔ x >>> (8 : Nat) < 0) := by
    intro x
    rw [Int.shiftRight_eq_div_pow]
    constructor
    · intro h; exact Int.ediv_neg' h (by norm_num)
    · intro h
      by_contra hx
      exact absurd (Int.ediv_nonneg (not_lt.mp hx) (by norm_num)) (not_le.mpr h)
  refine ⟨?_, ?_, hkeep, ?_, by decide⟩
  · rw [right_shift_eq hfit]
    simp only [List.length_append, List.length_map, List.length_take, List.length_drop]
    omega
  · intro i hi
    have hi' : i < ptr.length := lt_of_lt_of_le hi hlen
    refine ⟨ptr[i], List.getElem?_eq_getElem hi', ?_⟩
    rw [hshift i hi, List.getElem?_eq_getElem hi', Option.map_some', shiftRight_eight_eq_floor]
  · intro i x y hx hy
    by_cases hi : i < frames * channels
    · rw [hshift i hi, hx, Option.map_some', Option.some.injEq] at hy
      rw [← hy]
      exact hsign x
    · rw [hkeep i (not_lt.mp hi), hx, Option.some.injEq] at hy
      rw [hy]

/-- C10 (amended), on a block of two stereo frames of which the first is
shifted. -/
theorem right_shift_floor_div_witness :
    right_shift [-1, 256, -512, 77] 1 2 = [-1, 1, -512, 77] ∧
    (right_shift [-1, 256, -512, 77] 1 2).length = 4 :=
  ⟨by decide, (right_shift_floor_div [-1, 256, -512, 77] 1 2 (by decide) (by decide)).1⟩

/-! ## Lemmas: the tokenizer -/

theorem strchr_found {f : List Char} {c : Char} (rest : List Char) (hc : c ∉ f)
    (hn : NUL ∉ f) : strchr (f ++ c :: rest) c = some f.length := by
  induction f with
  | nil => simp [strchr]
  | cons x xs ih =>
    have hx : x ≠ c := fun h => hc (h ▸ List.mem_cons_self _ _)
    have hx0 : x ≠ NUL := fun h => hn (h ▸ List.mem_cons_self _ _)
    have := ih (fun h => hc (List.mem_cons_of_mem _ h)) (fun h => hn (List.mem_cons_of_mem _ h))
    simp [strchr, hx, hx0, this]

theorem strchr_absent {s : List Char} {c : Char} (back : List Char) (hc : c ∉ s)
    (hn : NUL ∉ s) (hc0 : c ≠ NUL) : strchr (s ++ NUL :: back) c = none := by
  induction s with
  | nil => simp [strchr, Ne.symm hc0]
  | cons x xs ih =>
    have hx : x ≠ c := fun h => hc (h ▸ List.mem_cons_self _ _)
    have hx0 : x ≠ NUL := fun h => hn (h ▸ List.mem_cons_self _ _)
    have := ih (fun h => hc (List.mem_cons_of_mem _ h)) (fun h => hn (List.mem_cons_of_mem _ h))
    simp [strchr, hx, hx0, this]

theorem first_occurrence (c : Char) (s : List Char) (h : c ∈ s) :
    ∃ f r, s = f ++ c :: r ∧ c ∉ f := by
  induction s with
  | nil => cases h
  | cons x xs ih =>
    by_cases hx : x = c
    · exact ⟨[], xs, by simp [hx], by simp⟩
    · have hmem : c ∈ xs := by
        rcases List.mem_cons.mp h with h1 | h1
        · exact absurd h1.symm hx
        · exact h1
      obtain ⟨f, r, h1, h2⟩ := ih hmem
      refine ⟨x :: f, r, by simp [h1], ?_⟩
      intro h3
      rcases List.mem_cons.mp h3 with h4 | h4
      · exact hx h4.symm
      · exact h2 h4

theorem cstr_at (front back : List Char) {f : List Char} (hn : NUL ∉ f) :
    cstr (front ++ (f ++ NUL :: back)) front.length = f := by
  unfold cstr
  rw [List.drop_left]
  induction f with
  | nil => simp [List.takeWhile]
  | cons x xs ih =>
    have hx0 : x ≠ NUL := fun h => hn (h ▸ List.mem_cons_self _ _)
    simp only [List.cons_append, List.takeWhile_cons, ne_eq, hx0, not_false_eq_true,
      decide_True, if_true, List.cons.injEq, true_and]
    exact ih fun h => hn (List.mem_cons_of_mem _ h)

theorem getD_head (front rest : List Char) (x : Char) :
    (front ++ x :: rest).getD front.length NUL = x := by
  rw [List.getD_eq_getElem?_getD, List.getElem?_append_right (le_refl _)]
  simp

theorem getD_at (front back : List Char) {f : List Char} (hn : NUL ∉ f) :
    ((front ++ (f ++ NUL :: back)).getD front.length NUL = NUL) ↔ f = [] := by
  cases f with
  | nil => rw [List.nil_append, getD_head]; simp
  | cons x xs =>
    have hx0 : x ≠ NUL := fun h => hn (h ▸ List.mem_cons_self _ _)
    rw [List.cons_append, getD_head]
    simp [hx0]

theorem set_at (front f rest : List Char) (c : Char) :
    (front ++ (f ++ c :: rest)).set (front.length + f.length) NUL =
      front ++ (f ++ NUL :: rest) := by
  rw [← List.append_assoc, ← List.append_assoc, ← List.length_append]
  simp

theorem next_param_src (t : Tokenizer) (p : Nat) (c : Char) :
    next_param t (some p) c = next_param { t with str := some p } none c := by
  simp [next_param]

theorem next_param_found (front f rest : List Char) (c : Char) (hc : c ∉ f) (hn : NUL ∉ f) :
    next_param { mem := front ++ (f ++ c :: rest), str := some front.length } none c =
      (if f ≠ [] then some front.length else none,
        { mem := (front ++ (f ++ [NUL])) ++ rest,
          str := some (front ++ (f ++ [NUL])).length }) := by
  simp only [next_param, Option.isSome_none, Bool.false_eq_true, if_false, List.drop_left,
    strchr_found rest hc hn, set_at, ne_eq, getD_at front rest hn]
  simp [Nat.add_assoc]

theorem next_param_last (front back : List Char) {s : List Char} {c : Char} (hc : c ∉ s)
    (hn : NUL ∉ s) (hc0 : c ≠ NUL) :
    next_param { mem := front ++ (s ++ NUL :: back), str := some front.length } none c =
      (if s ≠ [] then some front.length else none,
        { mem := front ++ (s ++ NUL :: back), str := none }) := by
  simp only [next_param, Option.isSome_none, Bool.false_eq_true, if_false, List.drop_left,
    strchr_absent back hc hn hc0, ne_eq, getD_at front back hn]

theorem next_param_calls_idle (c : Char) (k : Nat) (mem : List Char) :
    next_param_calls c k none { mem := mem, str := none } =
      (List.replicate k none, { mem := mem, str := none }) := by
  induction k with
  | zero => rfl
  | succ k ih => simp [next_param_calls, next_param, ih, List.replicate_succ]

theorem expected_calls_nil (k : Nat) : expected_calls k [] = List.replicate k none := by
  induction k with
  | zero => rfl
  | succ k ih => simp [expected_calls, ih, List.replicate_succ]

/-- The calls on a buffer that holds `s`, for a delimiter other than the
terminator: the memory in front of the string is left as it is, and the
pointers returned lead to the fields of `s`. -/
theorem next_param_calls_spec (c : Char) (hc0 : c ≠ NUL) (k : Nat) :
    ∀ (front s back : List Char), NUL ∉ s →
      ∃ rest, (next_param_calls c k none
          { mem := front ++ (s ++ NUL :: back), str := some front.length }).2.mem =
          front ++ rest ∧
        read_fields (next_param_calls c k none
          { mem := front ++ (s ++ NUL :: back), str := some front.length }) =
          expected_calls k (s.splitOn c) := by
  induction k with
  | zero => intro front s back _; exact ⟨_, rfl, rfl⟩
  | succ k ih =>
    intro front s back hn
    by_cases hc : c ∈ s
    · obtain ⟨f, r, hs, hcf⟩ := first_occurrence c s hc
      subst hs
      have hnf : NUL ∉ f := fun h => hn (List.mem_append_left _ h)
      have hnr : NUL ∉ r := fun h =>
        hn (List.mem_append_right _ (List.mem_cons_of_mem _ h))
      have hsplit : (f ++ c :: r).splitOn c = f :: r.splitOn c :=
        List.splitOnP_first (· == c) f
          (fun x hx h => hcf ((show x = c by simpa using h) ▸ hx)) c (by simp) r
      obtain ⟨rest, hmem, hread⟩ := ih (front ++ (f ++ [NUL])) r back hnr
      have hstep := next_param_found front f (r ++ NUL :: back) c hcf hnf
      simp only [List.append_assoc, List.cons_append, List.nil_append] at hstep hmem hread ⊢
      simp only [next_param_calls, hstep, hsplit, expected_calls, read_fields, List.map_cons]
      refine ⟨f ++ NUL :: rest, by rw [hmem], ?_⟩
      simp only [read_fields] at hread
      rw [hread, hmem]
      congr 1
      by_cases hf : f = []
      · simp [hf]
      · simp only [hf, not_false_eq_true, if_true, if_false, Option.map_some',
          Option.some.injEq, ne_eq]
        exact cstr_at front rest hnf
    · have hsplit : s.splitOn c = [s] :=
        List.splitOnP_eq_single (· == c) s
          (fun x hx h => hc ((show x = c by simpa using h) ▸ hx))
      have hstep := next_param_last front back hc hn hc0
      simp only [next_param_calls, hstep, hsplit, expected_calls, read_fields,
        next_param_calls_idle, expected_calls_nil, List.map_cons]
      refine ⟨s ++ NUL :: back, rfl, ?_⟩
      congr 1
      · by_cases hf : s = []
        · simp [hf]
        · simp only [hf, not_false_eq_true, if_true, if_false, Option.map_some',
            Option.some.injEq, ne_eq]
          exact cstr_at front back hn
      · simp


theorem read_fields_ne_empty (k : Nat) : ∀ fs : List (List Char),
    ∀ r ∈ expected_calls k fs, r ≠ some [] := by
  induction k with
  | zero => intro fs r hr; simp [expected_calls] at hr
  | succ k ih =>
    intro fs r hr
    cases fs with
    | nil =>
      simp only [expected_calls, List.mem_cons] at hr
      rcases hr with h | h
      · simp [h]
      · exact ih [] r h
    | cons f fs =>
      simp only [expected_calls, List.mem_cons] at hr
      rcases hr with h | h
      · subst h
        by_cases hf : f = []
        · simp [hf]
        · simp [hf]
      · exact ih fs r h

theorem next_param_calls_src (c : Char) (k p : Nat) (t : Tokenizer) :
    next_param_calls c (k + 1) (some p) t =
      next_param_calls c (k + 1) none { mem := t.mem, str := some p } := by
  simp only [next_param_calls, next_param_src]

theorem next_param_calls_holds (c : Char) (hc0 : c ≠ NUL) (k : Nat) (mem : List Char)
    (p : Nat) (s : List Char) (str : Option Nat) (h : holds mem p s) :
    read_fields (next_param_calls c k (some p) { mem := mem, str := str }) =
      expected_calls k (s.splitOn c) := by
  obtain ⟨hn, front, back, hmem, hp⟩ := h
  subst hmem hp
  cases k with
  | zero => rfl
  | succ k =>
    rw [next_param_calls_src, List.append_assoc]
    exact (next_param_calls_spec c hc0 (k + 1) front s back hn).choose_spec.2

theorem resample_params_calls (t : Tokenizer) (opt : Option Nat) :
    read_fields (next_param_calls ':' 7 opt t) =
      [(resample_params t opt).1.recipe, (resample_params t opt).1.flags,
        (resample_params t opt).1.atten, (resample_params t opt).1.precision,
        (resample_params t opt).1.passband_end, (resample_params t opt).1.stopband_begin,
        (resample_params t opt).1.phase_response] := by
  simp [next_param_calls, resample_params, read_fields]

theorem splitOn_leading (c : Char) (k : Nat) (tok : List Char) (hc : c ∉ tok) :
    (List.replicate k c ++ tok).splitOn c = List.replicate k [] ++ [tok] := by
  induction k with
  | zero =>
    exact List.splitOnP_eq_single (· == c) tok
      (fun x hx h => hc ((show x = c by simpa using h) ▸ hx))
  | succ k ih =>
    have h := List.splitOnP_cons (· == c) c (List.replicate k c ++ tok)
    simp only [beq_self_eq_true, if_true] at h
    rw [List.replicate_succ, List.cons_append, List.replicate_succ, List.cons_append]
    exact h.trans (congrArg _ ih)

/-! ## The claims on the tokenizer and the profile -/

/-- C11, as stated, fails for the delimiter that is the terminator: `strchr`
then returns the terminator itself and the next call goes on in the memory
behind the string. In a buffer holding "a", then "b", the string "a" has the
single field "a"; the first call returns "a" and the second returns "b",
where no field is left. -/
theorem next_param_nul_delimiter :
    holds ['a', NUL, 'b', NUL] 0 ['a'] ∧
    read_fields (next_param_calls NUL 2 (some 0) { mem := ['a', NUL, 'b', NUL], str := none }) =
      [some ['a'], some ['b']] ∧
    expected_calls 2 (['a'].splitOn NUL) = [some ['a'], none] := by
  refine ⟨⟨by decide, [], ['b', NUL], rfl, rfl⟩, by decide, by decide⟩

/-- C11 (amended): for every string `s` held in memory at `p` and every
delimiter other than the terminator, whatever `str` was before, a call
`next_param(p, c)` followed by calls `next_param(NULL, c)` returns, in order,
the fields of `s` split at every `c`, a non-empty field as it is and `NULL`
for an empty one, then `NULL` at every call after the last field; no call
returns an empty string. -/
theorem next_param_returns_fields (c : Char) (hc0 : c ≠ NUL) (k : Nat) (mem : List Char)
    (p : Nat) (s : List Char) (str : Option Nat) (h : holds mem p s) :
    read_fields (next_param_calls c k (some p) { mem := mem, str := str }) =
      expected_calls k (s.splitOn c) ∧
    (∀ i : Nat, i < k →
      (read_fields (next_param_calls c k (some p) { mem := mem, str := str }))[i]? =
        some (match (s.splitOn c)[i]? with
          | some f => if f = [] then none else some f
          | none => none)) ∧
    ∀ r ∈ read_fields (next_param_calls c k (some p) { mem := mem, str := str }),
      r ≠ some [] := by
  have hmain := next_param_calls_holds c hc0 k mem p s str h
  refine ⟨hmain, ?_, ?_⟩
  · rw [hmain]
    generalize s.splitOn c = fs
    clear hmain h
    induction k generalizing fs with
    | zero => intro i hi; omega
    | succ k ih =>
      intro i hi
      cases fs with
      | nil =>
        cases i with
        | zero => simp [expected_calls]
        | succ i =>
          have := ih [] i (by omega)
          simpa [expected_calls] using this
      | cons f fs =>
        cases i with
        | zero => simp [expected_calls]
        | succ i =>
          have := ih fs i (by omega)
          simpa [expected_calls] using this
  · rw [hmain]
    exact read_fields_ne_empty k _

/-- C11 (amended), on "a::b:" split at colons: five calls return "a", `NULL`,
"b", `NULL`, `NULL`. -/
theorem next_param_returns_fields_witness :
    read_fields (next_param_calls ':' 5 (some 0)
      { mem := ['a', ':', ':', 'b', ':', NUL], str := some 3 }) =
      [some ['a'], none, some ['b'], none, none] :=
  (next_param_returns_fields ':' (by decide) 5 ['a', ':', ':', 'b', ':', NUL] 0
    ['a', ':', ':', 'b', ':'] (some 3) ⟨by decide, [], [], rfl, rfl⟩).1.trans (by decide)


/-- C12: for a non-empty token without colon, held in memory behind `k`
colons with `k` from 0 to 6, the seven calls of `resample_create` bind the
token to field `k` and leave the other six fields `NULL`; with no `-R`
string and `str` still `NULL`, all seven are `NULL`. The profile built from
one field differs from the default profile, built from no field (recipe
`SOXR_HQ`, flags 0, the scale of `soxr_io_spec`, the quality spec of
`soxr_quality_spec`), only in that field's property: the recipe and the
quality spec derived from it, the flags and the quality spec derived from
them, the scale, or one member of the quality spec. -/
theorem field_isolation {F : Type} [LinearOrderedField F] (L : ProfileLib F)
    (tok : List Char) (sample_rate freq_limit channels : Nat)
    (htok : tok ≠ []) (hcolon : ':' ∉ tok) :
    (∀ (k : Nat) (mem : List Char) (p : Nat) (str : Option Nat), k < 7 →
      holds mem p (List.replicate k ':' ++ tok) →
      (resample_params { mem := mem, str := str } (some p)).1 = only_param k tok) ∧
    (∀ mem : List Char, (resample_params { mem := mem, str := none } none).1 = no_params) ∧
    (let d := build_profile L no_params sample_rate freq_limit channels
     d.q_recipe = L.SOXR_HQ ∧ d.q_flags = 0 ∧
     d.io_spec = L.soxr_io_spec L.SOXR_INT32_I L.SOXR_INT32_I ∧
     d.q_spec = L.soxr_quality_spec L.SOXR_HQ 0 ∧
     build_profile L (only_param 0 tok) sample_rate freq_limit channels =
       { d with q_recipe := q_recipe_of L (some tok)
                q_spec := L.soxr_quality_spec (q_recipe_of L (some tok)) 0 } ∧
     build_profile L (only_param 1 tok) sample_rate freq_limit channels =
       { d with q_flags := L.strtoul tok 16
                q_spec := L.soxr_quality_spec L.SOXR_HQ (L.strtoul tok 16) } ∧
     build_profile L (only_param 2 tok) sample_rate freq_limit channels =
       { d with io_spec :=
          if L.pow 10 (-(L.atof tok) / 20) > 0 ∧ L.pow 10 (-(L.atof tok) / 20) ≤ 1 then
            { d.io_spec with scale := L.pow 10 (-(L.atof tok) / 20) }
          else d.io_spec } ∧
     build_profile L (only_param 3 tok) sample_rate freq_limit channels =
       { d with q_spec := { d.q_spec with
          precision := if L.atof tok < 0 then 0 else L.atof tok } } ∧
     build_profile L (only_param 4 tok) sample_rate freq_limit channels =
       { d with q_spec := { d.q_spec with
          passband_end := if L.atof tok / 100 < 0 then 0 else L.atof tok / 100 } } ∧
     build_profile L (only_param 5 tok) sample_rate freq_limit channels =
       { d with q_spec := { d.q_spec with
          stopband_begin := if L.atof tok / 100 < 0 then 0 else L.atof tok / 100 } } ∧
     build_profile L (only_param 6 tok) sample_rate freq_limit channels =
       { d with q_spec := { d.q_spec with
          phase_response := if L.atof tok < -1 then -1 else L.atof tok } }) := by
  refine ⟨?_, ?_, ?_⟩
  · intro k mem p str hk hmem
    have hcalls := next_param_calls_holds ':' (by decide) 7 mem p _ str hmem
    rw [resample_params_calls, splitOn_leading ':' k tok hcolon] at hcalls
    generalize (resample_params { mem := mem, str := str } (some p)).1 = q at hcalls
    obtain ⟨q1, q2, q3, q4, q5, q6, q7⟩ := q
    interval_cases k <;>
      simp [expected_calls, htok, List.replicate_succ] at hcalls <;>
      simp [only_param, hcalls]
  · intro mem
    simp [resample_params, next_param, no_params]
  · refine ⟨rfl, rfl, rfl, rfl, ?_, ?_, ?_, ?_, ?_, ?_, ?_⟩ <;>
      simp [build_profile, no_params, only_param, q_recipe_of]

/-- C12, on ":::-5" (three colons, then a precision of -5): only the fourth
field is bound, and the profile is the default one with precision 0. -/
theorem field_isolation_witness :
    (resample_params { mem := [':', ':', ':', '-', '5', NUL], str := none } (some 0)).1 =
      only_param 3 ['-', '5'] ∧
    (build_profile sampleProfileLib (only_param 3 ['-', '5']) 352800 44100 2).q_spec.precision
      = 0 :=
  have h := field_isolation sampleProfileLib ['-', '5'] 352800 44100 2 (by decide) (by decide)
  ⟨h.1 3 [':', ':', ':', '-', '5', NUL] 0 none (by decide) ⟨by decide, [], [], rfl, rfl⟩,
    (congrArg (fun pr : Profile ℚ => pr.q_spec.precision) h.2.2.2.2.2.2.2.2.2.1).trans
      (by simp [sampleProfileLib, sample_digits])⟩


/-- C13, as stated, fails when the second parse is given the buffer the first
one worked on: the first parse of "a:b" returns "a", "b" and overwrites the
colon with a terminator, so the second parse of the same buffer returns "a"
and then `NULL`. -/
theorem reparse_sees_first_field :
    read_fields (next_param_calls ':' 3 (some 0) { mem := ['a', ':', 'b', NUL], str := none }) =
      [some ['a'], some ['b'], none] ∧
    read_fields (next_param_calls ':' 3 (some 0)
        (next_param_calls ':' 3 (some 0) { mem := ['a', ':', 'b', NUL], str := none }).2) =
      [some ['a'], none, none] := by
  decide

/-- C13 (amended): two top-level parses that start from the same memory
return the same sequence of fields, whatever `str` an earlier parse left
behind and whatever the delimiter; and for a delimiter other than the
terminator, so do two parses of two buffers that each hold the string, as no
parse has yet overwritten it. -/
theorem parse_ignores_left_state (c : Char) (k : Nat) (s : List Char) :
    (∀ (mem : List Char) (p : Nat) (str1 str2 : Option Nat),
      read_fields (next_param_calls c k (some p) { mem := mem, str := str1 }) =
        read_fields (next_param_calls c k (some p) { mem := mem, str := str2 })) ∧
    (c ≠ NUL → ∀ (mem1 mem2 : List Char) (p1 p2 : Nat) (str1 str2 : Option Nat),
      holds mem1 p1 s → holds mem2 p2 s →
      read_fields (next_param_calls c k (some p1) { mem := mem1, str := str1 }) =
        read_fields (next_param_calls c k (some p2) { mem := mem2, str := str2 })) := by
  constructor
  · intro mem p str1 str2
    cases k with
    | zero => rfl
    | succ k => rw [next_param_calls_src, next_param_calls_src]
  · intro hc0 mem1 mem2 p1 p2 str1 str2 h1 h2
    rw [next_param_calls_holds c hc0 k mem1 p1 s str1 h1,
      next_param_calls_holds c hc0 k mem2 p2 s str2 h2]

/-- C13 (amended), on "a:b" held at two addresses of two memories, the second
parse starting with the `str` a first parse left. -/
theorem parse_ignores_left_state_witness :
    read_fields (next_param_calls ':' 3 (some 0) { mem := ['a', ':', 'b', NUL], str := none }) =
      read_fields (next_param_calls ':' 3 (some 1)
        { mem := ['x', 'a', ':', 'b', NUL, 'y'], str := some 3 }) :=
  (parse_ignores_left_state ':' 3 ['a', ':', 'b']).2 (by decide) _ _ 0 1 none (some 3)
    ⟨by decide, [], [], rfl, rfl⟩ ⟨by decide, ['x'], ['y'], rfl, rfl⟩

theorem or_ite (q K : Nat) (c : Prop) [Decidable c] :
    (if c then q ||| K else q) = q ||| (if c then K else 0) := by
  split_ifs <;> simp

theorem q_spec_members {F : Type} [LinearOrderedField F] (L : ProfileLib F) (p : Params)
    (sample_rate freq_limit channels : Nat) :
    let b := build_profile L p sample_rate freq_limit channels
    let q := L.soxr_quality_spec (q_recipe_of L p.recipe) b.q_flags
    b.q_spec.precision =
      (match p.precision with
        | some s => if L.atof s < 0 then 0 else L.atof s
        | none => q.precision) ∧
    b.q_spec.passband_end =
      (match p.passband_end with
        | some s => if L.atof s / 100 < 0 then 0 else L.atof s / 100
        | none => q.passband_end) ∧
    b.q_spec.stopband_begin =
      (match p.stopband_begin with
        | some s => if L.atof s / 100 < 0 then 0 else L.atof s / 100
        | none => q.stopband_begin) ∧
    b.q_spec.phase_response =
      (match p.phase_response with
        | some s => if L.atof s < -1 then -1 else L.atof s
        | none => q.phase_response) := by
  obtain ⟨p1, p2, p3, p4, p5, p6, p7⟩ := p
  cases p4 <;> cases p5 <;> cases p6 <;> cases p7 <;> exact ⟨rfl, rfl, rfl, rfl⟩

theorem clamp_eq_max {F : Type} [LinearOrderedField F] (x lo : F) :
    (if x < lo then lo else x) = max x lo := by
  split_ifs with h
  · exact (max_eq_right (le_of_lt h)).symm
  · exact (max_eq_left (not_lt.mp h)).symm

/-- C14: for a non-empty recipe string the recipe is the tier of the last of
the letters v, h, m, l, q, in that order, that occurs in it, `SOXR_HQ` when
none occurs, with the constants of those of the letters L, I, M, s that occur
ORed in, whatever the tier; it is the same for two strings in which the same
letters occur, so "vq" and "qv" both give `SOXR_QQ`. -/
theorem recipe_letters {F : Type} (L : ProfileLib F) (r : List Char) (hr : r ≠ []) :
    q_recipe_of L (some r) =
      ((((if 'q' ∈ r then L.SOXR_QQ else if 'l' ∈ r then L.SOXR_LQ
          else if 'm' ∈ r then L.SOXR_MQ else if 'h' ∈ r then L.SOXR_HQ
          else if 'v' ∈ r then L.SOXR_VHQ else L.SOXR_HQ) |||
        (if 'L' ∈ r then L.SOXR_LINEAR_PHASE else 0)) |||
        (if 'I' ∈ r then L.SOXR_INTERMEDIATE_PHASE else 0)) |||
        (if 'M' ∈ r then L.SOXR_MINIMUM_PHASE else 0)) |||
        (if 's' ∈ r then L.SOXR_STEEP_FILTER else 0) ∧
    (∀ r2 : List Char, r2 ≠ [] → (∀ x : Char, x ∈ r ↔ x ∈ r2) →
      q_recipe_of L (some r) = q_recipe_of L (some r2)) ∧
    q_recipe_of L (some ['v', 'q']) = L.SOXR_QQ ∧ q_recipe_of L (some ['q', 'v']) = L.SOXR_QQ := by
  refine ⟨?_, ?_, ?_, ?_⟩
  · simp only [q_recipe_of, hr, ne_eq, not_false_eq_true, if_true, or_ite]
  · intro r2 hr2 hsame
    simp only [q_recipe_of, hr, hr2, ne_eq, not_false_eq_true, if_true, hsame]
  · simp [q_recipe_of]
  · simp [q_recipe_of]

/-- C14, on "vLs" with the constants of `soxr.h`: tier 6 with the steep-filter
bit, 70. -/
theorem recipe_letters_witness :
    q_recipe_of sampleProfileLib (some ['v', 'L', 's']) = 70 :=
  (recipe_letters sampleProfileLib ['v', 'L', 's'] (by decide)).1.trans (by decide)

/-- C15: a present precision, passband-end, stopband-begin or phase-response
field with parsed value `x` stores `max x 0`, `max (x / 100) 0`,
`max (x / 100) 0` and `max x (-1)`; an absent one leaves the member as
`soxr_quality_spec` gave it for the recipe and flags. The function has no
failing path: every seven fields give a profile. -/
theorem quality_parameters_clamped {F : Type} [LinearOrderedField F] (L : ProfileLib F)
    (p : Params) (sample_rate freq_limit channels : Nat) :
    (∀ s, p.precision = some s →
      (build_profile L p sample_rate freq_limit channels).q_spec.precision =
        max (L.atof s) 0) ∧
    (∀ s, p.passband_end = some s →
      (build_profile L p sample_rate freq_limit channels).q_spec.passband_end =
        max (L.atof s / 100) 0) ∧
    (∀ s, p.stopband_begin = some s →
      (build_profile L p sample_rate freq_limit channels).q_spec.stopband_begin =
        max (L.atof s / 100) 0) ∧
    (∀ s, p.phase_response = some s →
      (build_profile L p sample_rate freq_limit channels).q_spec.phase_response =
        max (L.atof s) (-1)) ∧
    (p.precision = none →
      (build_profile L p sample_rate freq_limit channels).q_spec.precision =
        (L.soxr_quality_spec (q_recipe_of L p.recipe)
          (build_profile L p sample_rate freq_limit channels).q_flags).precision) ∧
    (p.passband_end = none →
      (build_profile L p sample_rate freq_limit channels).q_spec.passband_end =
        (L.soxr_quality_spec (q_recipe_of L p.recipe)
          (build_profile L p sample_rate freq_limit channels).q_flags).passband_end) ∧
    (p.stopband_begin = none →
      (build_profile L p sample_rate freq_limit channels).q_spec.stopband_begin =
        (L.soxr_quality_spec (q_recipe_of L p.recipe)
          (build_profile L p sample_rate freq_limit channels).q_flags).stopband_begin) ∧
    (p.phase_response = none →
      (build_profile L p sample_rate freq_limit channels).q_spec.phase_response =
        (L.soxr_quality_spec (q_recipe_of L p.recipe)
          (build_profile L p sample_rate freq_limit channels).q_flags).phase_response) := by
  obtain ⟨h1, h2, h3, h4⟩ := q_spec_members L p sample_rate freq_limit channels
  refine ⟨?_, ?_, ?_, ?_, ?_, ?_, ?_, ?_⟩
  · intro s h; rw [h1, h]; exact clamp_eq_max _ _
  · intro s h; rw [h2, h]; exact clamp_eq_max _ _
  · intro s h; rw [h3, h]; exact clamp_eq_max _ _
  · intro s h; rw [h4, h]; exact clamp_eq_max _ _
  · intro h; rw [h1, h]
  · intro h; rw [h2, h]
  · intro h; rw [h3, h]
  · intro h; rw [h4, h]

/-- C15, on a passband-end field of "-5" and an absent precision field. -/
theorem quality_parameters_clamped_witness :
    (build_profile sampleProfileLib (only_param 4 ['-', '5']) 352800 44100 2).q_spec.passband_end
      = max (sampleProfileLib.atof ['-', '5'] / 100) 0 ∧
    (build_profile sampleProfileLib (only_param 4 ['-', '5']) 352800 44100 2).q_spec.precision
      = 20 :=
  have h := quality_parameters_clamped sampleProfileLib (only_param 4 ['-', '5']) 352800 44100 2
  ⟨h.2.1 ['-', '5'] rfl, h.2.2.2.2.1 rfl⟩

/-! ## The attenuation -/

theorem underflowProfileLib_pow_nonpos (x : ℚ) (hx : x ≤ 0) :
    0 ≤ underflowProfileLib.pow 10 x ∧ underflowProfileLib.pow 10 x ≤ 1 := by
  show 0 ≤ (if x ≤ -324 then (0 : ℚ) else 10 ^ ⌊x⌋) ∧ (if x ≤ -324 then (0 : ℚ) else 10 ^ ⌊x⌋) ≤ 1
  split_ifs with h
  · exact ⟨le_refl _, zero_le_one⟩
  · refine ⟨zpow_nonneg (by norm_num) _, ?_⟩
    have hf : ⌊x⌋ ≤ 0 := by
      have : ⌊x⌋ ≤ ⌊(0 : ℚ)⌋ := Int.floor_mono hx
      simpa using this
    exact zpow_le_one_of_nonpos₀ (by norm_num) hf

theorem underflowProfileLib_pow_pos (x : ℚ) (hx : 0 < x) :
    1 ≤ underflowProfileLib.pow 10 x := by
  show 1 ≤ (if x ≤ -324 then (0 : ℚ) else 10 ^ ⌊x⌋)
  rw [if_neg (by linarith)]
  exact one_le_zpow₀ (by norm_num) (Int.floor_nonneg.mpr (le_of_lt hx))

theorem io_spec_of_atten {F : Type} [LinearOrderedField F] (L : ProfileLib F) (p : Params)
    (sample_rate freq_limit channels : Nat) :
    (build_profile L p sample_rate freq_limit channels).io_spec =
      (match p.atten with
        | some a =>
          if L.pow 10 (-(L.atof a) / 20) > 0 ∧ L.pow 10 (-(L.atof a) / 20) ≤ 1 then
            { L.soxr_io_spec L.SOXR_INT32_I L.SOXR_INT32_I with
              scale := L.pow 10 (-(L.atof a) / 20) }
          else L.soxr_io_spec L.SOXR_INT32_I L.SOXR_INT32_I
        | none => L.soxr_io_spec L.SOXR_INT32_I L.SOXR_INT32_I) := by
  obtain ⟨p1, p2, p3, p4, p5, p6, p7⟩ := p
  cases p3 <;> rfl

/-- C16, as stated, fails for a large attenuation: with a `pow` that underflows
as that of a `double` does, an attenuation of 7000 dB is not negative, the
computed scale `pow(10, -350)` is 0, outside (0, 1], and the profile keeps the
scale of `soxr_io_spec`. -/
theorem attenuation_underflows :
    (0 : ℚ) ≤ underflowProfileLib.atof ['7', '0', '0', '0'] ∧
    underflowProfileLib.pow 10 (-(underflowProfileLib.atof ['7', '0', '0', '0']) / 20) = 0 ∧
    (build_profile underflowProfileLib (only_param 2 ['7', '0', '0', '0']) 352800 44100 2).io_spec
      = underflowProfileLib.soxr_io_spec underflowProfileLib.SOXR_INT32_I
          underflowProfileLib.SOXR_INT32_I := by
  have ha : underflowProfileLib.atof ['7', '0', '0', '0'] = 7000 := by
    simp [underflowProfileLib, sampleProfileLib, sample_digits]
  have hp : underflowProfileLib.pow 10 (-(underflowProfileLib.atof ['7', '0', '0', '0']) / 20)
      = 0 := by
    rw [ha]
    show (if (-(7000 : ℚ) / 20) ≤ -324 then (0 : ℚ) else 10 ^ ⌊(-(7000 : ℚ) / 20)⌋) = 0
    rw [if_pos (by norm_num)]
  refine ⟨by rw [ha]; norm_num, hp, ?_⟩
  rw [io_spec_of_atten]
  simp only [only_param, if_true]
  rw [hp]
  simp

/-- C16 (amended): for a present attenuation field with parsed value `dB`, the
computed scale `pow(10, -dB / 20)` is stored as the output scale exactly when
it lies in (0, 1], and the profile keeps the scale of `soxr_io_spec`
otherwise; an absent field keeps it too. With a `pow` that gives a value in
[0, 1] for an exponent that is not positive and a value of at least 1 for a
positive one: for `dB ≥ 0` the scale is at most 1 and is stored unless it is
0, and for `dB < 0` the scale is at least 1 and is rejected unless it is 1. -/
theorem attenuation_scale {F : Type} [LinearOrderedField F] (L : ProfileLib F) (p : Params)
    (sample_rate freq_limit channels : Nat)
    (hle : ∀ x : F, x ≤ 0 → 0 ≤ L.pow 10 x ∧ L.pow 10 x ≤ 1)
    (hge : ∀ x : F, 0 < x → 1 ≤ L.pow 10 x) :
    (p.atten = none →
      (build_profile L p sample_rate freq_limit channels).io_spec =
        L.soxr_io_spec L.SOXR_INT32_I L.SOXR_INT32_I) ∧
    ∀ a, p.atten = some a →
      (0 < L.pow 10 (-(L.atof a) / 20) ∧ L.pow 10 (-(L.atof a) / 20) ≤ 1 →
        (build_profile L p sample_rate freq_limit channels).io_spec =
          { L.soxr_io_spec L.SOXR_INT32_I L.SOXR_INT32_I with
            scale := L.pow 10 (-(L.atof a) / 20) }) ∧
      (¬(0 < L.pow 10 (-(L.atof a) / 20) ∧ L.pow 10 (-(L.atof a) / 20) ≤ 1) →
        (build_profile L p sample_rate freq_limit channels).io_spec =
          L.soxr_io_spec L.SOXR_INT32_I L.SOXR_INT32_I) ∧
      (0 ≤ L.atof a →
        0 ≤ L.pow 10 (-(L.atof a) / 20) ∧ L.pow 10 (-(L.atof a) / 20) ≤ 1 ∧
        (L.pow 10 (-(L.atof a) / 20) ≠ 0 →
          (build_profile L p sample_rate freq_limit channels).io_spec =
            { L.soxr_io_spec L.SOXR_INT32_I L.SOXR_INT32_I with
              scale := L.pow 10 (-(L.atof a) / 20) }) ∧
        (L.pow 10 (-(L.atof a) / 20) = 0 →
          (build_profile L p sample_rate freq_limit channels).io_spec =
            L.soxr_io_spec L.SOXR_INT32_I L.SOXR_INT32_I)) ∧
      (L.atof a < 0 →
        1 ≤ L.pow 10 (-(L.atof a) / 20) ∧
        (1 < L.pow 10 (-(L.atof a) / 20) →
          (build_profile L p sample_rate freq_limit channels).io_spec =
            L.soxr_io_spec L.SOXR_INT32_I L.SOXR_INT32_I) ∧
        (L.pow 10 (-(L.atof a) / 20) = 1 →
          (build_profile L p sample_rate freq_limit channels).io_spec =
            { L.soxr_io_spec L.SOXR_INT32_I L.SOXR_INT32_I with scale := 1 })) := by
  have hio := io_spec_of_atten L p sample_rate freq_limit channels
  refine ⟨fun h => by rw [hio, h], ?_⟩
  intro a ha
  rw [ha] at hio
  simp only at hio
  have hin : 0 < L.pow 10 (-(L.atof a) / 20) ∧ L.pow 10 (-(L.atof a) / 20) ≤ 1 →
      (build_profile L p sample_rate freq_limit channels).io_spec =
        { L.soxr_io_spec L.SOXR_INT32_I L.SOXR_INT32_I with
          scale := L.pow 10 (-(L.atof a) / 20) } := fun h => by rw [hio, if_pos h]
  have hout : ¬(0 < L.pow 10 (-(L.atof a) / 20) ∧ L.pow 10 (-(L.atof a) / 20) ≤ 1) →
      (build_profile L p sample_rate freq_limit channels).io_spec =
        L.soxr_io_spec L.SOXR_INT32_I L.SOXR_INT32_I := fun h => by rw [hio, if_neg h]
  refine ⟨hin, hout, ?_, ?_⟩
  · intro hdb
    have hx : -(L.atof a) / 20 ≤ 0 :=
      div_nonpos_of_nonpos_of_nonneg (neg_nonpos.mpr hdb) (by norm_num)
    obtain ⟨h0, h1⟩ := hle _ hx
    refine ⟨h0, h1, fun hne => hin ⟨lt_of_le_of_ne h0 (Ne.symm hne), h1⟩, fun hz => hout ?_⟩
    rw [hz]
    exact fun h => lt_irrefl _ h.1
  · intro hdb
    have hx : 0 < -(L.atof a) / 20 := div_pos (neg_pos.mpr hdb) (by norm_num)
    have h1 := hge _ hx
    refine ⟨h1, fun hgt => hout fun h => not_le.mpr hgt h.2, fun heq => ?_⟩
    have := hin ⟨by rw [heq]; exact zero_lt_one, le_of_eq heq⟩
    rw [this, heq]

/-- C16 (amended), on attenuations of 20 dB and of -20 dB: the first gives the
scale 1/10, the second computes 10 and keeps the scale 1. -/
theorem attenuation_scale_witness :
    (build_profile underflowProfileLib (only_param 2 ['2', '0']) 352800 44100 2).io_spec.scale
      = 1 / 10 ∧
    (build_profile underflowProfileLib (only_param 2 ['-', '2', '0']) 352800 44100
      2).io_spec.scale = 1 :=
  have ha : underflowProfileLib.atof ['2', '0'] = 20 := by
    simp [underflowProfileLib, sampleProfileLib, sample_digits]
  have hb : underflowProfileLib.atof ['-', '2', '0'] = -20 := by
    simp [underflowProfileLib, sampleProfileLib, sample_digits]
  have hp : underflowProfileLib.pow 10 (-(underflowProfileLib.atof ['2', '0']) / 20) = 1 / 10 := by
    rw [ha]
    show (if (-(20 : ℚ) / 20) ≤ -324 then (0 : ℚ) else 10 ^ ⌊(-(20 : ℚ) / 20)⌋) = 1 / 10
    rw [if_neg (by norm_num), show (-(20 : ℚ) / 20) = ((-1 : ℤ) : ℚ) by norm_num,
      Int.floor_intCast]
    norm_num
  have hq : underflowProfileLib.pow 10 (-(underflowProfileLib.atof ['-', '2', '0']) / 20)
      = 10 := by
    rw [hb]
    show (if (-(-20 : ℚ) / 20) ≤ -324 then (0 : ℚ) else 10 ^ ⌊(-(-20 : ℚ) / 20)⌋) = 10
    rw [if_neg (by norm_num), show (-(-20 : ℚ) / 20) = ((1 : ℤ) : ℚ) by norm_num,
      Int.floor_intCast]
    norm_num
  have h1 := (((attenuation_scale underflowProfileLib (only_param 2 ['2', '0']) 352800 44100 2
    underflowProfileLib_pow_nonpos underflowProfileLib_pow_pos).2 ['2', '0'] rfl).2.2.1
    (by rw [ha]; norm_num)).2.2.1 (by rw [hp]; norm_num)
  have h2 := (((attenuation_scale underflowProfileLib (only_param 2 ['-', '2', '0']) 352800
    44100 2 underflowProfileLib_pow_nonpos underflowProfileLib_pow_pos).2 ['-', '2', '0']
    rfl).2.2.2 (by rw [hb]; norm_num)).2.1 (by rw [hq]; norm_num)
  ⟨(congrArg soxr_io_spec_t.scale h1).trans hp, congrArg soxr_io_spec_t.scale h2⟩

/-! ## Lemmas: invariants of the calls of a run -/

theorem main_loop_forall {ρ ε : Type} (lib : Lib ρ ε) (cfg : Config) (P : Event → Prop)
    (hread : P (.dsd_read none))
    (hbody : ∀ (st : State ρ ε) (b : dsdbuffer), ∀ ev ∈ (loop_body lib cfg st b).2.2, P ev)
    (blocks : List dsdbuffer) :
    ∀ st : State ρ ε, ∀ ev ∈ (main_loop lib cfg st blocks).2.2, P ev := by
  induction blocks with
  | nil => intro st ev hev; simp [main_loop_nil] at hev; subst hev; exact hread
  | cons b rest ih =>
    intro st ev hev
    have hc := hbody st b
    rcases hb : loop_body lib cfg st b with ⟨_ | e, st1, tr⟩
    · rw [main_loop_next rest hb] at hev
      rw [hb] at hc
      rcases List.mem_append.mp hev with h | h
      · exact hc ev h
      · exact ih st1 ev h
    · rw [main_loop_stop rest hb] at hev
      rw [hb] at hc
      exact hc ev hev

theorem pack_call_shift {ρ ε : Type} (lib : Lib ρ ε) (cfg : Config) (b : dsdbuffer) (rj : Bool) :
    (pack_call lib cfg b rj).is_right_shift = false := by
  unfold pack_call; split <;> rfl

theorem pack_call_dop {ρ ε : Type} (lib : Lib ρ ε) (cfg : Config) (b : dsdbuffer) (rj : Bool) :
    (pack_call lib cfg b rj).is_dsd_over_pcm = cfg.dop := by
  unfold pack_call; split <;> simp_all [Event.is_dsd_over_pcm]

theorem pack_call_flag {ρ ε : Type} (lib : Lib ρ ε) (cfg : Config) (b : dsdbuffer) (rj : Bool) :
    (pack_call lib cfg b rj).right_justify = some rj := by
  unfold pack_call; split <;> rfl

theorem main_loop_plain_shift {ρ ε : Type} (lib : Lib ρ ε) (cfg : Config)
    (hlim : cfg.freq_limit = 0) (blocks : List dsdbuffer) (st : State ρ ε) :
    ∀ ev ∈ (main_loop lib cfg st blocks).2.2, ev.is_right_shift = false := by
  apply main_loop_forall lib cfg (fun ev => ev.is_right_shift = false) rfl
  intro st b
  rw [loop_body_plain lib cfg st b hlim]
  simp only [List.forall_mem_cons, pack_call_shift]
  simp [Event.is_right_shift]

theorem main_loop_dop {ρ ε : Type} (lib : Lib ρ ε) (cfg : Config) (blocks : List dsdbuffer)
    (st : State ρ ε) :
    ∀ ev ∈ (main_loop lib cfg st blocks).2.2, ev.is_dsd_over_pcm = true → cfg.dop = true := by
  apply main_loop_forall lib cfg (fun ev => ev.is_dsd_over_pcm = true → cfg.dop = true)
    (by simp [Event.is_dsd_over_pcm])
  intro st b
  by_cases hlim : cfg.freq_limit = 0
  · rw [loop_body_plain lib cfg st b hlim]
    simp only [List.forall_mem_cons, pack_call_dop]
    simp [Event.is_dsd_over_pcm]
  · rw [loop_body_limited lib cfg st b hlim]
    dsimp only
    split_ifs <;> simp only [List.forall_mem_cons, pack_call_dop, List.cons_append,
      List.nil_append] <;> simp [Event.is_dsd_over_pcm]

theorem main_loop_flag {ρ ε : Type} (lib : Lib ρ ε) (cfg : Config) (blocks : List dsdbuffer)
    (st : State ρ ε) :
    ∀ ev ∈ (main_loop lib cfg st blocks).2.2, ∀ rj, ev.right_justify = some rj →
      (rj = true ↔ cfg.freq_limit = 0) := by
  apply main_loop_forall lib cfg
    (fun ev => ∀ rj, ev.right_justify = some rj → (rj = true ↔ cfg.freq_limit = 0))
    (by simp [Event.right_justify])
  intro st b
  by_cases hlim : cfg.freq_limit = 0
  · rw [loop_body_plain lib cfg st b hlim]
    simp only [List.forall_mem_cons, pack_call_flag]
    simp [Event.right_justify, hlim]
  · rw [loop_body_limited lib cfg st b hlim]
    dsimp only
    split_ifs <;> simp only [List.forall_mem_cons, pack_call_flag, List.cons_append,
      List.nil_append] <;> simp [Event.right_justify, hlim]

/-! ## Lemmas: the justification of the batches -/

theorem justify_scan_append (a : Justification) (x y : List Event) :
    justify_scan a (x ++ y) = (justify_scan a x).bind fun a1 => justify_scan a1 y := by
  simp only [justify_scan, List.foldlM_append]
  rfl

theorem justify_scan_inert (a : Justification) (tr : List Event)
    (h : ∀ ev ∈ tr, ∀ a1 : Justification, a1.step ev = some a1) :
    justify_scan a tr = some a := by
  induction tr with
  | nil => rfl
  | cons ev tr ih =>
    have h1 := h ev (List.mem_cons_self _ _) a
    have h2 := ih fun e he => h e (List.mem_cons_of_mem _ he)
    simp only [justify_scan, List.foldlM_cons, h1] at h2 ⊢
    exact h2

theorem justify_scan_cons (a : Justification) (ev : Event) (tr : List Event) :
    justify_scan a (ev :: tr) = (a.step ev).bind fun a1 => justify_scan a1 tr := by
  simp only [justify_scan, List.foldlM_cons]
  rfl

theorem justify_scan_nil (a : Justification) : justify_scan a [] = some a := rfl

theorem Event.setup_step {ev : Event} (h : ev.is_setup = true) (a : Justification) :
    a.step ev = some a := by
  cases ev <;> simp_all [Event.is_setup, Justification.step]

theorem pack_call_step {ρ ε : Type} (lib : Lib ρ ε) (cfg : Config) (b : dsdbuffer) (rj : Bool)
    (a : Justification) :
    a.step (pack_call lib cfg b rj) =
      if a.pending then none else some { a with batch := if rj then 1 else 0 } := by
  unfold pack_call; split <;> rfl

theorem loop_body_justified {ρ ε : Type} (lib : Lib ρ ε) (cfg : Config) (st : State ρ ε)
    (b : dsdbuffer) (a : Justification) (ha : between_passes cfg a) :
    ∃ a1, justify_scan a (loop_body lib cfg st b).2.2 = some a1 ∧ between_passes cfg a1 := by
  obtain ⟨hp, hf⟩ := ha
  by_cases hlim : cfg.freq_limit = 0
  · rw [loop_body_plain lib cfg st b hlim]
    refine ⟨{ a with batch := 1 }, ?_, hp, fun h => absurd hlim h⟩
    simp only [justify_scan_cons, justify_scan_nil, pack_call_step]
    simp [Justification.step, hp]
  · rw [loop_body_limited lib cfg st b hlim]
    refine ⟨{ pending := false, batch := 1, fed := 0 }, ?_, rfl, fun _ => rfl⟩
    dsimp only
    split_ifs <;> simp only [List.cons_append, List.nil_append, justify_scan_cons,
      justify_scan_nil, pack_call_step] <;> simp [Justification.step, hp]

theorem main_loop_justified {ρ ε : Type} (lib : Lib ρ ε) (cfg : Config)
    (blocks : List dsdbuffer) :
    ∀ (st : State ρ ε) (a : Justification), between_passes cfg a →
      ∃ a1, justify_scan a (main_loop lib cfg st blocks).2.2 = some a1 ∧
        between_passes cfg a1 := by
  induction blocks with
  | nil =>
    intro st a ha
    exact ⟨a, by simp [main_loop_nil, justify_scan, Justification.step], ha⟩
  | cons b rest ih =>
    intro st a ha
    obtain ⟨a1, h1, ha1⟩ := loop_body_justified lib cfg st b a ha
    rcases hb : loop_body lib cfg st b with ⟨_ | e, st1, tr⟩
    · rw [hb] at h1
      obtain ⟨a2, h2, ha2⟩ := ih st1 a1 ha1
      rw [main_loop_next rest hb]
      refine ⟨a2, ?_, ha2⟩
      simp only [justify_scan_append] at h1 ⊢
      rw [h1]
      exact h2
    · rw [hb] at h1
      rw [main_loop_stop rest hb]
      exact ⟨a1, h1, ha1⟩

theorem drain_loop_justified {ρ ε : Type} (lib : Lib ρ ε) (cfg : Config)
    (hlim : cfg.freq_limit ≠ 0) (fuel : Nat) :
    ∀ (st st1 : State ρ ε) (tr : List Event) (a : Justification),
      drain_loop lib cfg fuel st = some (st1, tr) → between_passes cfg a →
      ∃ a1, justify_scan a tr = some a1 ∧ between_passes cfg a1 := by
  induction fuel with
  | zero => intro st st1 tr a h; simp [drain_loop] at h
  | succ fuel ih =>
    intro st st1 tr a h ha
    obtain ⟨hp, hf⟩ := ha
    have hfed := hf hlim
    rw [drain_loop_succ] at h
    dsimp only at h
    have hround : ∀ (i o n : Nat) (out s : List Int) (ok : Bool),
        justify_scan a [Event.soxr_process none 0 cfg.max_frames i o out,
          .right_shift n cfg.channels, .process_interleaved s n ok] =
          some { pending := false, batch := 1, fed := 0 } := by
      intro i o n out s ok
      simp [justify_scan, Justification.step, hp, hfed]
    split_ifs at h with hgo
    · simp only [Option.map_eq_some', Prod.mk.injEq] at h
      obtain ⟨⟨st2, tr2⟩, h2, h3, h4⟩ := h
      simp only at h3 h4
      subst h3 h4
      obtain ⟨a2, hs2, ha2⟩ := ih _ _ _ { pending := false, batch := 1, fed := 0 } h2
        ⟨rfl, fun _ => rfl⟩
      refine ⟨a2, ?_, ha2⟩
      rw [justify_scan_append, hround]
      exact hs2
    · simp only [Option.some.injEq, Prod.mk.injEq] at h
      obtain ⟨h3, h4⟩ := h
      subst h3 h4
      exact ⟨_, hround _ _ _ _ _ _, rfl, fun _ => rfl⟩

theorem Event.setup_flag {ev : Event} (h : ev.is_setup = true) :
    ev.right_justify = none ∧ ev.is_right_shift = false ∧ ev.is_dsd_over_pcm = false := by
  cases ev <;> simp_all [Event.is_setup, Event.right_justify, Event.is_right_shift,
    Event.is_dsd_over_pcm]

theorem Event.drain_call_step {ev : Event} (h : ev.is_drain_call = true) :
    ev.right_justify = none ∧ ev.is_dsd_over_pcm = false := by
  cases ev <;> simp_all [Event.is_drain_call, Event.right_justify, Event.is_dsd_over_pcm]

theorem startup_trace_calls {ρ ε : Type} [Inhabited ρ] (lib : Lib ρ ε) (inp : Input) :
    (∀ r, Event.set_sample_rate r ∈ startup_trace (startup lib inp) →
      r = (if (select_mode inp.frequency inp.freq_limit inp.dop).freq_limit ≠ 0
        then (select_mode inp.frequency inp.freq_limit inp.dop).freq_limit
        else (select_mode inp.frequency inp.freq_limit inp.dop).sample_rate)) ∧
    (∀ sr fl ch ok, Event.resample_create sr fl ch ok ∈ startup_trace (startup lib inp) →
      sr = (select_mode inp.frequency inp.freq_limit inp.dop).sample_rate ∧
      fl = (select_mode inp.frequency inp.freq_limit inp.dop).freq_limit ∧
      ch = inp.channels ∧
      (select_mode inp.frequency inp.freq_limit inp.dop).freq_limit ≠ 0) := by
  unfold startup
  simp only [halfrate]
  split
  · simp [startup_trace]
  · split
    · simp [startup_trace]
    · split
      · rename_i hlim
        split
        · simp only [startup_trace]
          simp
          intros
          exact ⟨by assumption, by assumption, by assumption, hlim⟩
        · split
          · simp only [startup_trace]
            simp
            intros
            exact ⟨by assumption, by assumption, by assumption, hlim⟩
          · simp only [startup_trace]
            simp
            intros
            exact ⟨by assumption, by assumption, by assumption, hlim⟩
      · simp [startup_trace]

theorem startup_trace_kind {ρ ε : Type} [Inhabited ρ] (lib : Lib ρ ε) (inp : Input) :
    ∀ ev ∈ startup_trace (startup lib inp), ev.is_setup = true ∨ ∃ msg, ev = .error msg := by
  unfold startup
  simp only [halfrate]
  split
  · simp [startup_trace, Event.is_setup]
  · split
    · simp [startup_trace, Event.is_setup]
    · split
      · split
        · simp [startup_trace, Event.is_setup]
        · split
          · simp [startup_trace, Event.is_setup]
          · simp [startup_trace, Event.is_setup]
      · simp [startup_trace, Event.is_setup]

theorem select_mode_limited (frequency freq_limit : Nat) (dop : Bool)
    (h : (select_mode frequency freq_limit dop).freq_limit ≠ 0) :
    (select_mode frequency freq_limit dop).dop = false ∧
    (select_mode frequency freq_limit dop).freq_limit = freq_limit ∧
    (select_mode frequency freq_limit dop).sample_rate = frequency / 8 ∧
    freq_limit ≤ frequency / 8 := by
  unfold select_mode at h ⊢
  dsimp only at h ⊢
  split_ifs at h ⊢ <;> simp_all

theorem select_mode_rate (frequency freq_limit : Nat) (dop : Bool) :
    (select_mode frequency freq_limit dop).sample_rate ≤ frequency / 8 ∧
    ((select_mode frequency freq_limit dop).freq_limit = 0 → freq_limit ≠ 0 →
      (select_mode frequency freq_limit dop).sample_rate ≤ freq_limit) := by
  unfold select_mode
  dsimp only
  split_ifs <;> simp_all <;> omega

theorem plain_run_no_resampling {ρ ε : Type} [Inhabited ρ] (lib : Lib ρ ε) (inp : Input)
    (cfg : Config) (st0 : State ρ ε) (tr0 : List Event)
    (hstart : startup lib inp = .ok (cfg, st0, tr0)) (fuel : Nat) (out : Outcome)
    (hout : main lib fuel inp = some out) (hlim : cfg.freq_limit = 0) :
    ∀ ev ∈ out.trace, ev.is_right_shift = false ∧ ev.is_soxr_process = false := by
  have hs := startup_trace_setup hstart
  rw [main_of_startup fuel hstart,
    if_neg (main_loop_plain_calls lib cfg hlim inp.blocks st0).1,
    drain_plain lib cfg hlim] at hout
  simp only [Option.map_some', Option.some.injEq] at hout
  subst hout
  intro ev hev
  simp only [List.append_nil, List.mem_append, List.mem_singleton] at hev
  rcases hev with (h | h) | h
  · exact ⟨(Event.setup_flag (hs ev h)).2.1, (Event.setup_kind (hs ev h)).2.1⟩
  · exact ⟨main_loop_plain_shift lib cfg hlim inp.blocks st0 ev h,
      (main_loop_plain_calls lib cfg hlim inp.blocks st0).2 ev h⟩
  · subst h; exact ⟨rfl, rfl⟩

/-- In a list that ends with `last` and then `closing`, where no call before
`last` and none of `closing` failed, a failed call is `last` and what follows
it is `closing`. -/
theorem split_in_closing {t closing init post : List Event} {x last : Event}
    (h : t ++ last :: closing = init ++ x :: post) (ht : ∀ y ∈ t, y.is_failure = false)
    (hx : x.is_failure = true) (hc : ∀ y ∈ closing, y.is_failure = false) :
    x = last ∧ post = closing := by
  obtain ⟨p, hp⟩ := split_after_failure h ht hx
  cases p with
  | nil =>
    simp only [List.nil_append, List.cons.injEq] at hp
    exact ⟨hp.1.symm, hp.2.symm⟩
  | cons c cs =>
    simp only [List.cons_append, List.cons.injEq] at hp
    have hmem : x ∈ closing := by rw [hp.2]; simp
    rw [hc x hmem] at hx
    cases hx

theorem loop_body_fatal {ρ ε : Type} (lib : Lib ρ ε) (cfg : Config) (st : State ρ ε)
    (b : dsdbuffer) (h : (loop_body lib cfg st b).1 = some .fatal) :
    ∃ tr s n ok, (loop_body lib cfg st b).2.2 =
        tr ++ [.process_interleaved s n ok, .error "not resampled all frames"] ∧
      ∀ ev ∈ tr, ev.is_failure = false := by
  by_cases hlim : cfg.freq_limit = 0
  · rw [loop_body_plain lib cfg st b hlim] at h
    dsimp only at h
    split_ifs at h
    simp at h
  · rw [loop_body_limited lib cfg st b hlim] at h ⊢
    dsimp only at h ⊢
    by_cases hid : (lib.soxr_process st.resampler (some (packed lib cfg st b false))
        (block_frames cfg.dop b) st.pcmout2 cfg.max_frames).idone ≠ block_frames cfg.dop b
    · rw [if_pos hid]
      refine ⟨[_, _, _, _, _], _, _, _, rfl, ?_⟩
      simp only [List.forall_mem_cons, pack_call_failure]
      simp [Event.is_failure]
    · rw [if_neg hid] at h
      split_ifs at h
      simp at h

theorem main_loop_fatal_shape {ρ ε : Type} (lib : Lib ρ ε) (cfg : Config)
    (blocks : List dsdbuffer) :
    ∀ st : State ρ ε, (main_loop lib cfg st blocks).1 = .fatal →
      ∃ tr s n ok, (main_loop lib cfg st blocks).2.2 =
          tr ++ [.process_interleaved s n ok, .error "not resampled all frames"] ∧
        ∀ ev ∈ tr, ev.is_failure = false := by
  induction blocks with
  | nil => intro st h; simp [main_loop_nil] at h
  | cons b rest ih =>
    intro st h
    rcases hb : loop_body lib cfg st b with ⟨_ | e, st1, tr⟩
    · have hc := loop_body_continue lib cfg st b (by rw [hb])
      rw [hb] at hc
      rw [main_loop_next rest hb] at h ⊢
      obtain ⟨t, s, n, ok, ht, hno⟩ := ih st1 h
      refine ⟨tr ++ t, s, n, ok, by simp [ht], ?_⟩
      intro ev hev
      rcases List.mem_append.mp hev with h1 | h1
      · exact hc ev h1
      · exact hno ev h1
    · rw [main_loop_stop rest hb] at h ⊢
      simp only at h
      subst h
      have := loop_body_fatal lib cfg st b (by rw [hb])
      rw [hb] at this
      exact this

/-- The calls of a drain that ran: it starts with a `soxr_process` call with no
input, and no call before its last one failed. -/
theorem drain_loop_shape {ρ ε : Type} (lib : Lib ρ ε) (cfg : Config) (fuel : Nat) :
    ∀ (st st1 : State ρ ε) (tr : List Event), drain_loop lib cfg fuel st = some (st1, tr) →
      (∃ i o out rest, tr = .soxr_process none 0 cfg.max_frames i o out :: rest) ∧
      ∃ t last, tr = t ++ [last] ∧ ∀ ev ∈ t, ev.is_failure = false := by
  induction fuel with
  | zero => intro st st1 tr h; simp [drain_loop] at h
  | succ fuel ih =>
    intro st st1 tr h
    rw [drain_loop_succ] at h
    dsimp only at h
    split_ifs at h with hgo
    · simp only [Option.map_eq_some', Prod.mk.injEq] at h
      obtain ⟨⟨st2, tr2⟩, h2, h3, h4⟩ := h
      simp only at h3 h4
      subst h3 h4
      obtain ⟨-, t, last, ht, hno⟩ := ih _ _ _ h2
      refine ⟨⟨_, _, _, _, rfl⟩, ?_⟩
      refine ⟨_ ++ t, last, by rw [ht, List.append_assoc], ?_⟩
      intro ev hev
      rcases List.mem_append.mp hev with h1 | h1
      · clear hev; revert ev; simp [Event.is_failure, hgo.2]
      · exact hno ev h1
    · simp only [Option.some.injEq, Prod.mk.injEq] at h
      obtain ⟨h3, h4⟩ := h
      subst h3 h4
      refine ⟨⟨_, _, _, _, rfl⟩, [_, _], _, rfl, ?_⟩
      simp [Event.is_failure]

/-! ## The claims on justification, rates and failures -/

/-- C17: in a run whose set-up reached the main loop, every packer call has
its right-justify flag set exactly when limiting is off. Without limiting a
pass is the read, the normalisation, the packer call with the flag set and
the encoder call on the packed buffer, and no `right_shift` or `soxr_process`
call occurs in the run. With limiting a pass is the read, the normalisation,
the packer call with the flag clear, `soxr_process` on the packed buffer,
`right_shift` over the frames it produced and the encoder call on the shifted
buffer (then `error` on a short consumption). Along every run, main loop and
drain, `right_shift` only goes over a batch the resampler has just produced,
and every batch the encoder is handed has been right-justified exactly
once. -/
theorem batches_justified_once {ρ ε : Type} [Inhabited ρ] (lib : Lib ρ ε) (inp : Input)
    (cfg : Config) (st0 : State ρ ε) (tr0 : List Event)
    (hstart : startup lib inp = .ok (cfg, st0, tr0)) :
    (cfg.freq_limit = 0 → ∀ (st : State ρ ε) (b : dsdbuffer),
      (loop_body lib cfg st b).2.2 =
        [.dsd_read (some b), .dsd_buffer_msb_order, pack_call lib cfg b true,
          .process_interleaved (packed lib cfg st b true) (block_frames cfg.dop b)
            (lib.process_interleaved st.encoder (packed lib cfg st b true)
              (block_frames cfg.dop b)).snd]) ∧
    (cfg.freq_limit ≠ 0 → ∀ (st : State ρ ε) (b : dsdbuffer),
      (loop_body lib cfg st b).2.2 = limited_pass lib cfg st b ∨
      (loop_body lib cfg st b).2.2 =
        limited_pass lib cfg st b ++ [.error "not resampled all frames"]) ∧
    (∀ fuel out, main lib fuel inp = some out →
      (∀ ev ∈ out.trace, ∀ rj, ev.right_justify = some rj →
        (rj = true ↔ cfg.freq_limit = 0)) ∧
      (cfg.freq_limit = 0 →
        ∀ ev ∈ out.trace, ev.is_right_shift = false ∧ ev.is_soxr_process = false) ∧
      (justify_scan { pending := false, batch := 0, fed := 0 } out.trace).isSome = true) := by
  refine ⟨?_, ?_, ?_⟩
  · intro hlim st b
    rw [loop_body_plain lib cfg st b hlim]
  · intro hlim st b
    rw [loop_body_limited lib cfg st b hlim]
    dsimp only [limited_pass]
    split_ifs
    · exact Or.inr rfl
    · exact Or.inl rfl
  · intro fuel out hout
    have hs := startup_trace_setup hstart
    have hfl := main_loop_flag lib cfg inp.blocks st0
    have hscan0 : justify_scan { pending := false, batch := 0, fed := 0 } tr0 =
        some { pending := false, batch := 0, fed := 0 } :=
      justify_scan_inert _ _ fun ev hev a => Event.setup_step (hs ev hev) a
    obtain ⟨a1, hscan1, ha1⟩ := main_loop_justified lib cfg inp.blocks st0
      { pending := false, batch := 0, fed := 0 } ⟨rfl, fun _ => rfl⟩
    rw [main_of_startup fuel hstart] at hout
    split_ifs at hout with hfatal
    · simp only [Option.some.injEq] at hout
      subst hout
      refine ⟨?_, ?_, ?_⟩
      · intro ev hev
        rcases List.mem_append.mp hev with h | h
        · intro rj hrj
          rw [(Event.setup_flag (hs ev h)).1] at hrj
          cases hrj
        · exact hfl ev h
      · intro hlim
        exact absurd hfatal (main_loop_plain_calls lib cfg hlim inp.blocks st0).1
      · simp only [justify_scan_append, hscan0, Option.some_bind, hscan1, Option.isSome_some]
    · simp only [Option.map_eq_some'] at hout
      obtain ⟨⟨st2, tr2⟩, hd, hout⟩ := hout
      subst hout
      obtain ⟨hdc, -⟩ := drain_calls lib cfg fuel _ st2 tr2 hd
      refine ⟨?_, ?_, ?_⟩
      · intro ev hev
        simp only [List.mem_append, List.mem_singleton] at hev
        rcases hev with ((h | h) | h) | h
        · intro rj hrj
          rw [(Event.setup_flag (hs ev h)).1] at hrj
          cases hrj
        · exact hfl ev h
        · intro rj hrj
          rw [(Event.drain_call_step (hdc ev h)).1] at hrj
          cases hrj
        · subst h
          intro rj hrj
          cases hrj
      · intro hlim ev hev
        rw [drain_plain lib cfg hlim] at hd
        simp only [Option.some.injEq, Prod.mk.injEq] at hd
        obtain ⟨-, hd2⟩ := hd
        subst hd2
        simp only [List.append_nil, List.mem_append, List.mem_singleton] at hev
        rcases hev with (h | h) | h
        · exact ⟨(Event.setup_flag (hs ev h)).2.1, (Event.setup_kind (hs ev h)).2.1⟩
        · exact ⟨main_loop_plain_shift lib cfg hlim inp.blocks st0 ev h,
            (main_loop_plain_calls lib cfg hlim inp.blocks st0).2 ev h⟩
        · subst h; exact ⟨rfl, rfl⟩
      · have hscan2 : ∃ a2, justify_scan a1 tr2 = some a2 := by
          by_cases hlim : cfg.freq_limit = 0
          · rw [drain_plain lib cfg hlim] at hd
            simp only [Option.some.injEq, Prod.mk.injEq] at hd
            obtain ⟨-, hd2⟩ := hd
            subst hd2
            exact ⟨a1, rfl⟩
          · rw [drain_limited lib cfg hlim] at hd
            obtain ⟨a2, h2, -⟩ := drain_loop_justified lib cfg hlim fuel _ st2 tr2 a1 hd ha1
            exact ⟨a2, h2⟩
        obtain ⟨a2, hscan2⟩ := hscan2
        simp only [justify_scan_append, hscan0, Option.some_bind, hscan1, hscan2,
          justify_scan_cons, justify_scan_nil, Justification.step, Option.isSome_some]

/-- C17, on a limited run of `sampleLib`: the run keeps the rule, and its
packer calls have the flag clear. -/
theorem batches_justified_once_witness :
    ∃ out, main (sampleLib id fun _ => true) 2 (sampleInput 44100 true) = some out ∧
      (justify_scan { pending := false, batch := 0, fed := 0 } out.trace).isSome = true ∧
      (out.trace.filterMap Event.right_justify) = [false, false] :=
  ⟨_, rfl, ((batches_justified_once (sampleLib id fun _ => true) (sampleInput 44100 true)
    _ _ _ rfl).2.2 2 _ rfl).2.2, by decide⟩

/-- C18: the rate given to `set_sample_rate`, in every set-up that gets to the
call, is the effective ceiling when it is not 0 and the working rate
otherwise; that rate is at most `frequency / 8`, and at most the requested
ceiling when one is requested; a set-up that reaches the main loop has made
the call. -/
theorem encoder_rate_within_ceiling {ρ ε : Type} [Inhabited ρ] (lib : Lib ρ ε) (inp : Input) :
    (∀ r, Event.set_sample_rate r ∈ startup_trace (startup lib inp) →
      r = (if (select_mode inp.frequency inp.freq_limit inp.dop).freq_limit ≠ 0
        then (select_mode inp.frequency inp.freq_limit inp.dop).freq_limit
        else (select_mode inp.frequency inp.freq_limit inp.dop).sample_rate) ∧
      r ≤ inp.frequency / 8 ∧ (inp.freq_limit ≠ 0 → r ≤ inp.freq_limit)) ∧
    (∀ cfg st tr, startup lib inp = .ok (cfg, st, tr) →
      Event.set_sample_rate
        (if cfg.freq_limit ≠ 0 then cfg.freq_limit else cfg.sample_rate) ∈ tr) := by
  constructor
  · intro r hr
    have hrate := (startup_trace_calls lib inp).1 r hr
    refine ⟨hrate, ?_, ?_⟩
    · rw [hrate]
      split_ifs with h
      · obtain ⟨-, h2, -, h4⟩ := select_mode_limited _ _ _ h
        rw [h2]; exact h4
      · exact (select_mode_rate _ _ _).1
    · intro hc
      rw [hrate]
      split_ifs with h
      · obtain ⟨-, h2, -, -⟩ := select_mode_limited _ _ _ h
        rw [h2]
      · exact (select_mode_rate _ _ _).2 (not_not.mp h) hc
  · intro cfg st tr h
    obtain ⟨h1, h2, -⟩ := startup_ok_inv h
    subst h1 h2
    simp [setup_calls]

/-- C18, at 2822400 Hz with DoP requested: a ceiling of 200000 keeps DoP and
the encoder gets 176400; a ceiling of 44100 gives 44100. -/
theorem encoder_rate_within_ceiling_witness :
    Event.set_sample_rate 176400 ∈
      startup_trace (startup (sampleLib id fun _ => true) (sampleInput 200000 true)) ∧
    (176400 : Nat) ≤ 2822400 / 8 ∧ ((200000 : Nat) ≠ 0 → (176400 : Nat) ≤ 200000) :=
  have h : Event.set_sample_rate 176400 ∈
      startup_trace (startup (sampleLib id fun _ => true) (sampleInput 200000 true)) := by
    decide
  ⟨h, ((encoder_rate_within_ceiling (sampleLib id fun _ => true)
    (sampleInput 200000 true)).1 176400 h).2⟩

/-- C19: when limiting is active after mode selection, DoP is off, the working
rate is `frequency / 8` and the effective ceiling is at most it; every
`resample_create` call of a set-up is made in direct mode, from
`frequency / 8` to a target not above it; and a run in which the DoP packer is
called makes no `soxr_process` and no `right_shift` call. -/
theorem limiting_excludes_dop {ρ ε : Type} [Inhabited ρ] (lib : Lib ρ ε) (inp : Input) :
    ((select_mode inp.frequency inp.freq_limit inp.dop).freq_limit ≠ 0 →
      (select_mode inp.frequency inp.freq_limit inp.dop).dop = false ∧
      (select_mode inp.frequency inp.freq_limit inp.dop).sample_rate = inp.frequency / 8 ∧
      (select_mode inp.frequency inp.freq_limit inp.dop).freq_limit ≤ inp.frequency / 8) ∧
    (∀ sr fl ch ok, Event.resample_create sr fl ch ok ∈ startup_trace (startup lib inp) →
      (select_mode inp.frequency inp.freq_limit inp.dop).dop = false ∧
      sr = inp.frequency / 8 ∧ fl ≤ sr) ∧
    (∀ fuel out, main lib fuel inp = some out →
      (∃ ev ∈ out.trace, ev.is_dsd_over_pcm = true) →
      ∀ ev ∈ out.trace, ev.is_soxr_process = false ∧ ev.is_right_shift = false) := by
  have hmode : (select_mode inp.frequency inp.freq_limit inp.dop).freq_limit ≠ 0 →
      (select_mode inp.frequency inp.freq_limit inp.dop).dop = false ∧
      (select_mode inp.frequency inp.freq_limit inp.dop).sample_rate = inp.frequency / 8 ∧
      (select_mode inp.frequency inp.freq_limit inp.dop).freq_limit ≤ inp.frequency / 8 := by
    intro h
    obtain ⟨h1, h2, h3, h4⟩ := select_mode_limited _ _ _ h
    exact ⟨h1, h3, by rw [h2]; exact h4⟩
  refine ⟨hmode, ?_, ?_⟩
  · intro sr fl ch ok hev
    obtain ⟨h1, h2, -, h4⟩ := (startup_trace_calls lib inp).2 sr fl ch ok hev
    obtain ⟨m1, m2, m3⟩ := hmode h4
    exact ⟨m1, by rw [h1, m2], by rw [h1, h2, m2]; exact m3⟩
  · intro fuel out hout hdop
    rcases hs : startup lib inp with tr | ⟨cfg, st, tr0⟩
    · simp only [main, hs, Option.some.injEq] at hout
      subst hout
      obtain ⟨ev, hev, hd⟩ := hdop
      have hk := startup_trace_kind lib inp ev (by rw [hs]; exact hev)
      rcases hk with h | ⟨msg, h⟩
      · rw [(Event.setup_flag h).2.2] at hd; cases hd
      · subst h; cases hd
    · have hset := startup_trace_setup hs
      obtain ⟨ev0, hev0, hd0⟩ := hdop
      have hcfg := (startup_ok_inv hs).1
      have hlimit : cfg.freq_limit = 0 := by
        by_contra hne
        have hdoptrue : cfg.dop = true := by
          rw [main_of_startup fuel hs] at hout
          split_ifs at hout with hfatal
          · simp only [Option.some.injEq] at hout
            subst hout
            rcases List.mem_append.mp hev0 with h | h
            · rw [(Event.setup_flag (hset ev0 h)).2.2] at hd0; cases hd0
            · exact main_loop_dop lib cfg inp.blocks st ev0 h hd0
          · simp only [Option.map_eq_some'] at hout
            obtain ⟨⟨st2, tr2⟩, hd, hout⟩ := hout
            subst hout
            obtain ⟨hdc, -⟩ := drain_calls lib cfg fuel _ st2 tr2 hd
            simp only [List.mem_append, List.mem_singleton] at hev0
            rcases hev0 with ((h | h) | h) | h
            · rw [(Event.setup_flag (hset ev0 h)).2.2] at hd0; cases hd0
            · exact main_loop_dop lib cfg inp.blocks st ev0 h hd0
            · rw [(Event.drain_call_step (hdc ev0 h)).2] at hd0; cases hd0
            · subst h; cases hd0
        rw [hcfg] at hne hdoptrue
        simp only at hne hdoptrue
        rw [(hmode hne).1] at hdoptrue
        cases hdoptrue
      have hrun := plain_run_no_resampling lib inp cfg st tr0 hs fuel out hout hlimit
      intro ev hev
      exact ⟨(hrun ev hev).2, (hrun ev hev).1⟩

/-- C19, at 2822400 Hz with DoP requested and a ceiling of 44100: limiting is
active, DoP is off, and the ceiling is below the working rate 352800. -/
theorem limiting_excludes_dop_witness :
    (select_mode 2822400 44100 true).dop = false ∧
    (select_mode 2822400 44100 true).sample_rate = 2822400 / 8 ∧
    (select_mode 2822400 44100 true).freq_limit ≤ 2822400 / 8 :=
  (limiting_excludes_dop (sampleLib id fun _ => true) (sampleInput 44100 true)).1 (by decide)

/-- The first round of a drain that ran. -/
theorem drain_loop_first_round {ρ ε : Type} (lib : Lib ρ ε) (cfg : Config) (fuel : Nat)
    (st st1 : State ρ ε) (tr : List Event) (h : drain_loop lib cfg fuel st = some (st1, tr)) :
    ∃ i o buf smp ok rest, tr = .soxr_process none 0 cfg.max_frames i o buf ::
      .right_shift (toU32 o) cfg.channels :: .process_interleaved smp (toU32 o) ok :: rest := by
  cases fuel with
  | zero => simp [drain_loop] at h
  | succ fuel =>
    rw [drain_loop_succ] at h
    dsimp only at h
    split_ifs at h with hgo
    · simp only [Option.map_eq_some', Prod.mk.injEq] at h
      obtain ⟨⟨st2, tr2⟩, -, -, h4⟩ := h
      simp only at h4
      subst h4
      exact ⟨_, _, _, _, _, _, rfl⟩
    · simp only [Option.some.injEq, Prod.mk.injEq] at h
      obtain ⟨-, h4⟩ := h
      subst h4
      exact ⟨_, _, _, _, _, [], rfl⟩

/-- Where a failed call can stand in a trace whose first failed call is `f`:
it is `f`, or it comes after `f`. -/
theorem split_at_failure {a b init post : List Event} {x f : Event}
    (h : a ++ f :: b = init ++ x :: post) (ha : ∀ y ∈ a, y.is_failure = false)
    (hx : x.is_failure = true) :
    (init = a ∧ x = f ∧ post = b) ∨ ∃ cs, init = a ++ f :: cs ∧ b = cs ++ x :: post := by
  rcases List.append_eq_append_iff.mp h with ⟨a', h1, h2⟩ | ⟨c', h1, h2⟩
  · cases a' with
    | nil =>
      simp only [List.nil_append, List.cons.injEq] at h2
      exact Or.inl ⟨by simpa using h1, h2.1.symm, h2.2.symm⟩
    | cons c cs =>
      simp only [List.cons_append, List.cons.injEq] at h2
      exact Or.inr ⟨cs, by rw [h1, h2.1], h2.2⟩
  · cases c' with
    | nil =>
      simp only [List.nil_append, List.cons.injEq] at h2
      exact Or.inl ⟨by simpa using h1.symm, h2.1, h2.2⟩
    | cons c cs =>
      simp only [List.cons_append, List.cons.injEq] at h2
      have hmem : x ∈ a := by rw [h1, h2.1]; simp
      rw [ha x hmem] at hx
      cases hx

/-- What follows a failed `process_interleaved` call, by the way the main loop
ended. -/
theorem after_failure_cases {ρ ε : Type} [Inhabited ρ] (lib : Lib ρ ε) (inp : Input)
    (cfg : Config) (st : State ρ ε) (tr0 : List Event)
    (hstart : startup lib inp = .ok (cfg, st, tr0)) (fuel : Nat) (out : Outcome)
    (hout : main lib fuel inp = some out) (init post : List Event) (s : List Int) (n : Nat)
    (hsplit : out.trace = init ++ .process_interleaved s n false :: post) :
    ((main_loop lib cfg st inp.blocks).1 = .eof ∧ post = [.finish]) ∨
    ((main_loop lib cfg st inp.blocks).1 = .fatal ∧ cfg.freq_limit ≠ 0 ∧
      post = [.error "not resampled all frames"]) ∨
    ((main_loop lib cfg st inp.blocks).1 = .encoder_failed ∧
      ∃ st2 tr2, drain lib cfg fuel (main_loop lib cfg st inp.blocks).2.1 = some (st2, tr2) ∧
        (((∀ ev ∈ init, ev.is_failure = false) ∧
            init ++ [.process_interleaved s n false] =
              tr0 ++ (main_loop lib cfg st inp.blocks).2.2 ∧
            post = tr2 ++ [.finish]) ∨
          ((∃ ev ∈ init, ev.is_failure = true) ∧ post = [.finish]))) := by
  have hs := startup_trace_setup hstart
  have hs0 : ∀ y ∈ tr0, y.is_failure = false := fun y hy => (Event.setup_kind (hs y hy)).2.2.1
  have hx : (Event.process_interleaved s n false).is_failure = true := rfl
  obtain ⟨sh1, sh2⟩ := main_loop_shape lib cfg inp.blocks st
  have hfin : ∀ y ∈ [Event.finish], y.is_failure = false := by simp [Event.is_failure]
  rw [main_of_startup fuel hstart] at hout
  split_ifs at hout with hfatal
  · simp only [Option.some.injEq] at hout
    subst hout
    have hlim : cfg.freq_limit ≠ 0 := fun h =>
      (main_loop_plain_calls lib cfg h inp.blocks st).1 hfatal
    obtain ⟨t, s1, n1, ok1, ht, hno⟩ := main_loop_fatal_shape lib cfg inp.blocks st hfatal
    simp only at hsplit
    rw [ht, ← List.append_assoc] at hsplit
    have ha : ∀ y ∈ tr0 ++ t, y.is_failure = false := by
      intro y hy
      rcases List.mem_append.mp hy with h | h
      · exact hs0 y h
      · exact hno y h
    have := split_in_closing hsplit ha hx (by simp [Event.is_failure])
    exact Or.inr (Or.inl ⟨hfatal, hlim, this.2⟩)
  · simp only [Option.map_eq_some'] at hout
    obtain ⟨⟨st2, tr2⟩, hd, hout⟩ := hout
    subst hout
    simp only at hsplit
    -- a failed call inside the drain is its last call
    have hdrain : ∀ (a : List Event) (init1 : List Event),
        (∀ y ∈ a, y.is_failure = false) →
        a ++ (tr2 ++ [Event.finish]) = init1 ++ Event.process_interleaved s n false :: post →
        post = [.finish] := by
      intro a init1 ha heq
      by_cases hlim : cfg.freq_limit = 0
      · rw [drain_plain lib cfg hlim] at hd
        simp only [Option.some.injEq, Prod.mk.injEq] at hd
        obtain ⟨-, hd2⟩ := hd
        subst hd2
        obtain ⟨p, hp⟩ := split_after_failure heq ha hx
        cases p with
        | nil => simp at hp
        | cons c cs => simp at hp
      · rw [drain_limited lib cfg hlim] at hd
        obtain ⟨-, t2, last, ht2, hno2⟩ := drain_loop_shape lib cfg fuel _ st2 tr2 hd
        rw [ht2] at heq
        have heq2 : (a ++ t2) ++ last :: [Event.finish] =
            init1 ++ Event.process_interleaved s n false :: post := by
          rw [← heq]; simp
        have ha2 : ∀ y ∈ a ++ t2, y.is_failure = false := by
          intro y hy
          rcases List.mem_append.mp hy with h | h
          · exact ha y h
          · exact hno2 y h
        exact (split_in_closing heq2 ha2 hx hfin).2
    rcases hexit : (main_loop lib cfg st inp.blocks).1 with _ | _ | _
    · obtain ⟨t, ht, hno⟩ := sh1 hexit
      rw [ht] at hsplit
      have ha : ∀ y ∈ tr0 ++ (t ++ [Event.dsd_read none]), y.is_failure = false := by
        intro y hy
        simp only [List.mem_append, List.mem_singleton] at hy
        rcases hy with h | h | h
        · exact hs0 y h
        · exact hno y h
        · subst h; rfl
      exact Or.inl ⟨rfl, hdrain _ init ha (by rw [← hsplit]; simp)⟩
    · obtain ⟨t, s0, n0, ht, hno⟩ := sh2 hexit
      rw [ht] at hsplit
      have ha : ∀ y ∈ tr0 ++ t, y.is_failure = false := by
        intro y hy
        rcases List.mem_append.mp hy with h | h
        · exact hs0 y h
        · exact hno y h
      refine Or.inr (Or.inr ⟨rfl, st2, tr2, hd, ?_⟩)
      rcases split_at_failure
        (a := tr0 ++ t) (f := Event.process_interleaved s0 n0 false) (b := tr2 ++ [Event.finish])
        (by rw [← hsplit]; simp) ha hx with ⟨h1, h2, h3⟩ | ⟨cs, h1, h2⟩
      · refine Or.inl ⟨by rw [h1]; exact ha, ?_, h3⟩
        rw [h1, h2, ht]; simp
      · refine Or.inr ⟨⟨Event.process_interleaved s0 n0 false, by rw [h1]; simp, rfl⟩, ?_⟩
        exact hdrain [] cs (by simp) (by simpa using h2)
    · exact absurd hexit hfatal

/-- C20, as stated, fails with limiting active: in a limited run of
`sampleLib` whose second encoder call fails, the call of index 19 is that
failed `process_interleaved`, and the drain still makes one `soxr_process`
call and one `process_interleaved` call after it, before `finish`. -/
theorem drain_follows_encoder_failure :
    ∃ out s n, main (sampleLib id fun k => decide (k < 1)) 2 (sampleInput 44100 true) =
        some out ∧
      out.trace = out.trace.take 19 ++ .process_interleaved s n false :: out.trace.drop 20 ∧
      ((out.trace.drop 20).filter Event.is_soxr_process).length = 1 ∧
      (encode_frames (out.trace.drop 20)).length = 1 ∧
      out.trace.getLast? = some .finish :=
  ⟨_, [-2, -2, -2, -2, -512, -512, -512, -512], 2, rfl, by decide, by decide, by decide,
    by decide⟩

/-- C20 (amended): once a `process_interleaved` call has reported failure, no
block is read and no packer is called any more. With limiting inactive the
next call is `finish`. With limiting active: when the main loop ended at the
end of the stream, the failed call is in the drain and `finish` alone follows
it; when the main loop ended in the fatal error, `error` alone follows it;
when the failure stopped the main loop, the drain still runs, starting with a
`soxr_process` call with no input, a `right_shift` and another
`process_interleaved` call: the first failed call of the run is the last call
of the main loop and the whole drain and then `finish` follow it, and a later
failed call, one of the drain, is followed by `finish` alone. -/
theorem calls_after_encoder_failure {ρ ε : Type} [Inhabited ρ] (lib : Lib ρ ε) (inp : Input)
    (cfg : Config) (st : State ρ ε) (tr0 : List Event)
    (hstart : startup lib inp = .ok (cfg, st, tr0)) :
    ∀ fuel out, main lib fuel inp = some out →
      ∀ init post s n, out.trace = init ++ .process_interleaved s n false :: post →
        (∀ ev ∈ post, ev.is_dsd_read = false ∧ ev.right_justify = none) ∧
        (cfg.freq_limit = 0 → post = [.finish]) ∧
        (cfg.freq_limit ≠ 0 →
          ((main_loop lib cfg st inp.blocks).1 = .eof → post = [.finish]) ∧
          ((main_loop lib cfg st inp.blocks).1 = .fatal →
            post = [.error "not resampled all frames"]) ∧
          ((main_loop lib cfg st inp.blocks).1 = .encoder_failed →
            ∃ st2 i o buf smp ok rest,
              drain lib cfg fuel (main_loop lib cfg st inp.blocks).2.1 =
                some (st2, .soxr_process none 0 cfg.max_frames i o buf ::
                  .right_shift (toU32 o) cfg.channels ::
                  .process_interleaved smp (toU32 o) ok :: rest) ∧
              ((∀ ev ∈ init, ev.is_failure = false) →
                init ++ [.process_interleaved s n false] =
                  tr0 ++ (main_loop lib cfg st inp.blocks).2.2 ∧
                post = .soxr_process none 0 cfg.max_frames i o buf ::
                  .right_shift (toU32 o) cfg.channels ::
                  .process_interleaved smp (toU32 o) ok :: rest ++ [.finish]) ∧
              ((∃ ev ∈ init, ev.is_failure = true) → post = [.finish]))) := by
  intro fuel out hout init post s n hsplit
  have hcases := after_failure_cases lib inp cfg st tr0 hstart fuel out hout init post s n hsplit
  refine ⟨?_, ?_, ?_⟩
  · rcases hcases with ⟨-, h⟩ | ⟨-, -, h⟩ | ⟨-, st2, tr2, hd, ⟨-, -, h⟩ | ⟨-, h⟩⟩
    · subst h; simp [Event.is_dsd_read, Event.right_justify]
    · subst h; simp [Event.is_dsd_read, Event.right_justify]
    · subst h
      obtain ⟨hdc, -⟩ := drain_calls lib cfg fuel _ st2 tr2 hd
      intro ev hev
      rcases List.mem_append.mp hev with h1 | h1
      · exact ⟨(Event.drain_call_kind (hdc ev h1)).2, (Event.drain_call_step (hdc ev h1)).1⟩
      · simp only [List.mem_singleton] at h1; subst h1; exact ⟨rfl, rfl⟩
    · subst h; simp [Event.is_dsd_read, Event.right_justify]
  · intro hlim
    rcases hcases with ⟨-, h⟩ | ⟨-, h0, -⟩ | ⟨-, st2, tr2, hd, ⟨-, -, h⟩ | ⟨-, h⟩⟩
    · exact h
    · exact absurd hlim h0
    · rw [drain_plain lib cfg hlim] at hd
      simp only [Option.some.injEq, Prod.mk.injEq] at hd
      rw [h, ← hd.2]; rfl
    · exact h
  · intro hlim
    refine ⟨?_, ?_, ?_⟩
    · intro he
      rcases hcases with ⟨-, h⟩ | ⟨h0, -⟩ | ⟨h0, -⟩
      · exact h
      · rw [he] at h0; cases h0
      · rw [he] at h0; cases h0
    · intro he
      rcases hcases with ⟨h0, -⟩ | ⟨-, -, h⟩ | ⟨h0, -⟩
      · rw [he] at h0; cases h0
      · exact h
      · rw [he] at h0; cases h0
    · intro he
      rcases hcases with ⟨h0, -⟩ | ⟨h0, -⟩ | ⟨-, st2, tr2, hd, halt⟩
      · rw [he] at h0; cases h0
      · rw [he] at h0; cases h0
      · have hd1 := hd
        rw [drain_limited lib cfg hlim] at hd1
        obtain ⟨i, o, buf, smp, ok, rest, htr⟩ :=
          drain_loop_first_round lib cfg fuel _ st2 tr2 hd1
        subst htr
        refine ⟨st2, i, o, buf, smp, ok, rest, hd, ?_, ?_⟩
        · intro hno
          rcases halt with ⟨-, h1, h2⟩ | ⟨⟨ev, hev, hf⟩, -⟩
          · exact ⟨h1, h2⟩
          · rw [hno ev hev] at hf; cases hf
        · rintro ⟨ev, hev, hf⟩
          rcases halt with ⟨hno, -, -⟩ | ⟨-, h⟩
          · rw [hno ev hev] at hf; cases hf
          · exact h

/-- C20 (amended), on the limited run of `sampleLib` whose second encoder call
fails: that call is the call of index 19, no call before it failed, and the
three calls of a drain round and `finish` follow it. -/
theorem calls_after_encoder_failure_witness :
    ∃ out i o buf smp ok rest,
      main (sampleLib id fun k => decide (k < 1)) 2 (sampleInput 44100 true) = some out ∧
      out.trace.drop 20 = .soxr_process none 0 4 i o buf :: .right_shift (toU32 o) 2 ::
        .process_interleaved smp (toU32 o) ok :: rest ++ [.finish] := by
  obtain ⟨st2, i, o, buf, smp, ok, rest, -, h, -⟩ :=
    ((calls_after_encoder_failure (sampleLib id fun k => decide (k < 1))
      (sampleInput 44100 true) _ _ _ rfl 2 _ rfl
      (List.take 19 ((main (sampleLib id fun k => decide (k < 1)) 2
        (sampleInput 44100 true)).getD { status := 0, trace := [] }).trace)
      (List.drop 20 ((main (sampleLib id fun k => decide (k < 1)) 2
        (sampleInput 44100 true)).getD { status := 0, trace := [] }).trace)
      [-2, -2, -2, -2, -512, -512, -512, -512] 2 (by decide)).2.2 (by decide)).2.2 (by decide)
  exact ⟨_, i, o, buf, smp, ok, rest, rfl, (h (by decide)).2⟩

end Dsdplay
